import Mathlib

/-!
Verification of the bounded concurrent pagination processor of
`src/send_applies.py` (the `hh_apply` repository).

The development shallowly embeds the program:

* the pure per-call functions (`get_vacancies_response`,
  `process_vacancies_response`, `apply_to_vacancy`,
  `vacancy_blacklisted_by_words`, `vacancy_blacklisted_by_ids`) are
  translated directly into Lean functions over structures that mirror the
  decoded HTTP responses;
* the worker pool (`fetch_vacancy_page` running over an `asyncio.Queue`
  in `main`) is modelled as a small-step transition system: a global
  state carries the queue contents, the `unfinished` counter used by
  `join`, the shutdown flag, the local control state of every worker,
  and an event trace (newest event first).  Scheduling and transport
  responses are nondeterministic: a step picks a worker index and, where
  the program awaits a network response, an arbitrary response value.

Granularity of the steps follows asyncio's cooperative semantics: code
between genuine suspension points (network awaits, a blocking
`queue.get`) runs atomically.  In particular `fill_queue` contains no
suspension point for an unbounded queue, so processing a successful
page-0 response, including all its `queue.put` calls, is one atomic
step, and the `shutdown`/`break`/`task_done` sequence in the
`HH_Limit_Exceeded_Error` handler is likewise atomic.  Where the model
is finer-grained than the program (separate steps for consecutive
item skips, for example) it only adds interleavings, which is sound for
the safety properties proved here.
-/

namespace HHApply

/-- One vacancy item of a listing response: the fields of
`response_json["items"][i]` that `fetch_vacancy_page` reads
(`id`, `name`, `employer.name`, `alternate_url`). -/
structure Vac where
  id : String
  name : String
  employer : String
  alternate_url : String
  deriving DecidableEq

/-- The decoded JSON body of a successful listing response: the fields
`found`, `pages` and `items` that `process_vacancies_response` reads. -/
structure PageJson where
  found : Nat
  pages : Nat
  items : List Vac
  deriving DecidableEq

/-- A raw listing HTTP response as `get_vacancies_response` sees it:
status code, decoded body (meaningful when the status is 200), raw text
(used in the error log line). -/
structure ListingResponse where
  status : Nat
  json : PageJson
  body : String
  deriving DecidableEq

/-- The raw response of the `POST /negotiations` call as
`apply_to_vacancy` sees it: status, optional `Location` header, the
`error["value"]` entries of the decoded body's `errors` list, the
body's `description` field, and raw text. -/
structure ApplyResponse where
  status : Nat
  location : Option String
  errors : List String
  description : String
  body : String
  deriving DecidableEq

/-- The `SearchType` enum of the script (`similar` / `query`). -/
inductive SearchType where
  | similar
  | query
  deriving DecidableEq

/-- The immutable configuration the run reads from `settings` plus the
CLI flags: blacklists, test-run flag, Notion toggle, search mode. -/
structure Env where
  blacklist_words : List String
  blacklist_ids : List String
  test_run : Bool
  notion_enabled : Bool
  search : SearchType

/-- Translation of `get_vacancies_response`: issues the GET for the chosen search mode
and returns the decoded JSON on status 200, `None` otherwise (the error
branch logs and returns `None`).  The two search modes differ only in
the request they issue; the `SearchType` enum is exhaustive, so the
final `return None` fallback of the Python function is unreachable. -/
def get_vacancies_response (search : SearchType) (response : ListingResponse) :
    Option PageJson :=
  match search with
  | .similar => if response.status ≠ 200 then none else some response.json
  | .query => if response.status ≠ 200 then none else some response.json

/-- The pages enqueued by `fill_queue(queue, start_page, end_page)`:
`range(start_page, end_page)`. -/
def fill_queue_pages (start_page end_page : Nat) : List Nat :=
  List.range' start_page (end_page - start_page)

/-- Pure content of `process_vacancies_response`: given the (optional)
decoded response and the page index, the list of items to iterate and
the list of pages passed to `fill_queue` (pages `page+1 .. pages-1`,
only for page 0; empty when the response is `None`). -/
def process_vacancies_response (response_json : Option PageJson) (page : Nat) :
    List Vac × List Nat :=
  match response_json with
  | some j => (j.items, if page = 0 then fill_queue_pages (page + 1) j.pages else [])
  | none => ([], [])

/-- Characters matched by the character class of
`settings.blacklist_regex = \b[0-9а-яa-z]+\b`. -/
def isTokenChar (c : Char) : Bool :=
  ('0' ≤ c && c ≤ '9') || ('a' ≤ c && c ≤ 'z') || ('а' ≤ c && c ≤ 'я')

/-- Word characters for the regex's `\b` boundaries (`\w` restricted to
the alphabets that matter after lowercasing: latin, cyrillic, digits,
underscore). -/
def isWordChar (c : Char) : Bool :=
  isTokenChar c || c = '_' || ('A' ≤ c && c ≤ 'Z') || ('А' ≤ c && c ≤ 'Я')
    || c = 'ё' || c = 'Ё'

/-- Python `str.lower` on the alphabets in play: ASCII `A-Z` and cyrillic
`А-Я`, `Ё`. -/
def pyLowerChar (c : Char) : Char :=
  if 'A' ≤ c && c ≤ 'Z' then Char.ofNat (c.toNat + 32)
  else if 'А' ≤ c && c ≤ 'Я' then Char.ofNat (c.toNat + 32)
  else if c = 'Ё' then 'ё'
  else c

/-- Lowercasing of the vacancy text before tokenization. -/
def pyLower (s : String) : String :=
  String.mk (s.data.map pyLowerChar)

/-- Translation of `blacklist_regex.findall(text)`: the maximal runs of word characters
that consist entirely of characters of the class `[0-9а-яa-z]` (a run
containing some other word character has no inner `\b` boundary and so
yields no match). -/
def findallTokens (s : String) : List String :=
  ((s.data.splitOnP (fun c => !isWordChar c)).filter
      (fun run => !run.isEmpty && run.all isTokenChar)).map String.mk

/-- Translation of `vacancy_blacklisted_by_words`: some token of the lowercased text is
in `settings.blacklist_words`. -/
def vacancy_blacklisted_by_words (env : Env) (vacancy_text : String) : Bool :=
  (findallTokens (pyLower vacancy_text)).any
    (fun word => env.blacklist_words.contains word)

/-- Translation of `vacancy_blacklisted_by_ids`: the vacancy id is in
`settings.blacklist_ids`. -/
def vacancy_blacklisted_by_ids (env : Env) (vacancy_id : String) : Bool :=
  env.blacklist_ids.contains vacancy_id

/-- Result of one `apply_to_vacancy` call: either the function returns
(with the negotiation url on 201, `None` otherwise) or it raises
`HH_Limit_Exceeded_Error`. -/
inductive ApplyOutcome where
  | returned (negotiation_url : Option String)
  | limitExceeded
  deriving DecidableEq

/-- Translation of `apply_to_vacancy`: given the response of the POST: first component
is the outcome (return value or the raised limit signal), second is the
`error_msg` of the failure log line, `none` when no failure is logged
(success, or the limit path which logs before raising). -/
def apply_to_vacancy (response : ApplyResponse) : ApplyOutcome × Option String :=
  if response.status = 201 then
    (.returned (some (response.location.getD "")), none)
  else if response.status = 403 ∨ response.status = 400 then
    if response.errors.any (fun e => e = "limit_exceeded") then
      (.limitExceeded, none)
    else
      (.returned none, some response.description)
  else if response.status = 303 then
    (.returned none,
      some ("External apply required on " ++ response.location.getD ""))
  else
    (.returned none,
      some ("Unknown error: " ++ toString response.status ++ " " ++ response.body))

/-- The per-item decision of the loop body of `fetch_vacancy_page`:
word-blacklist check first, then id-blacklist, then the test-run flag,
and only then the real apply call. -/
inductive ItemDecision where
  | skipWords
  | skipIds
  | testRun
  | act
  deriving DecidableEq

/-- The skip/act decision for one vacancy, in the order the `if` /
`elif` chain of `fetch_vacancy_page` evaluates it.  The word filter is
fed `" ".join((vacancy["name"], vacancy["employer"]["name"]))`. -/
def itemDecision (env : Env) (v : Vac) : ItemDecision :=
  if vacancy_blacklisted_by_words env (v.name ++ " " ++ v.employer) then .skipWords
  else if vacancy_blacklisted_by_ids env v.id then .skipIds
  else if env.test_run then .testRun
  else .act

/-! ## The worker pool as a transition system

`main` puts unit 0 on a fresh `asyncio.Queue`, spawns `workers_num`
copies of `fetch_vacancy_page`, awaits `queue.join()`, then cancels the
workers.  Each worker loops: `get` a page, fetch it, process the
response (which for page 0 enqueues the remaining pages), iterate the
items, `task_done`.  The limit-exceeded handler shuts the queue down
immediately, breaks out of the item loop and calls `task_done`; the
worker's next `get` then raises `QueueShutDown`, which ends the
worker coroutine (`main` gathers with `return_exceptions=True`). -/
/-- Control state of one `fetch_vacancy_page` coroutine, at its
suspension points.  `exited` is a worker whose `get` raised
`QueueShutDown`; `crashed` is a worker killed by an unexpected
exception (`QueueShutDown` out of `queue.put`, or `ValueError` out of
`task_done`) — proved unreachable below. -/
inductive Phase where
  | atGet
  | atFetch (page : Nat)
  | processing (page : Nat) (rest : List Vac)
  | atTaskDone (page : Nat)
  | exited
  | crashed
  deriving DecidableEq

/-- Observable events of a run, used to state the temporal claims:
queue operations, the calls issued to the listing / negotiation /
Notion transports, and the skip/failure log lines. -/
inductive Event where
  | getUnit (w page : Nat)
  | fetchCall (w page : Nat)
  | fetchFail (w page : Nat)
  | putUnit (page : Nat)
  | skipWordsEv (w : Nat) (vid : String)
  | skipIdsEv (w : Nat) (vid : String)
  | testRunEv (w : Nat) (vid : String)
  | actionCall (w : Nat) (vid : String)
  | applyFailed (w : Nat) (vid msg : String)
  | recordCall (w : Nat) (vid url : String)
  | shutdownEv
  | taskDoneEv (w page : Nat)
  | workerExit (w : Nat)
  deriving DecidableEq

/-- The `asyncio.Queue` state: FIFO contents, the `unfinished_tasks`
counter (`join` resolves when it is 0), and the shutdown flag. -/
structure QState where
  items : List Nat
  unfinished : Nat
  isShutdown : Bool
  deriving DecidableEq

/-- Global state: queue, the phase of each worker, the page count
reported by the successful page-0 response (ghost observation), and the
event trace, newest event first. -/
structure Sys where
  q : QState
  workers : List Phase
  reportedPages : Option Nat
  trace : List Event
  deriving DecidableEq

/-- Input consumed by one step: a pure scheduling step, or the
nondeterministically chosen response of the network call the worker is
suspended on. -/
inductive Inp where
  | tick
  | page (r : ListingResponse)
  | resp (r : ApplyResponse)

/-- One atomic step of worker `w` of `fetch_vacancy_page`, following
asyncio's cooperative scheduling (code between suspension points is
atomic; see the header comment).  `none` means worker `w` has no step
for this input (blocked on an empty open queue, already terminated, or
the input kind does not match its suspension point). -/
def stepFn (env : Env) (s : Sys) (w : Nat) (i : Inp) : Option Sys :=
  match s.workers[w]?, i with
  | some .atGet, .tick =>
    -- `page = await queue.get()`
    match s.q.items with
    | page :: rest =>
        some ⟨⟨rest, s.q.unfinished, s.q.isShutdown⟩,
          s.workers.set w (.atFetch page), s.reportedPages,
          .getUnit w page :: s.trace⟩
    | [] =>
        if s.q.isShutdown then
          -- `get` raises `QueueShutDown`; uncaught, the coroutine ends
          some ⟨s.q, s.workers.set w .exited, s.reportedPages,
            .workerExit w :: s.trace⟩
        else none
  | some (.atFetch page), .page r =>
    -- `get_vacancies_response` + `process_vacancies_response`; for a
    -- successful page 0 this includes all of `fill_queue` (no
    -- suspension point on an unbounded queue), so it is one step
    match get_vacancies_response env.search r with
    | none =>
        some ⟨s.q, s.workers.set w (.atTaskDone page), s.reportedPages,
          .fetchFail w page :: .fetchCall w page :: s.trace⟩
    | some j =>
        if page = 0 then
          if s.q.isShutdown ∧ (process_vacancies_response (some j) page).2 ≠ [] then
            -- the first `queue.put` of `fill_queue` raises
            -- `QueueShutDown`; uncaught (unreachable, proved below)
            some ⟨s.q, s.workers.set w .crashed, s.reportedPages,
              .fetchCall w page :: s.trace⟩
          else
            some ⟨⟨s.q.items ++ (process_vacancies_response (some j) page).2,
                s.q.unfinished + (process_vacancies_response (some j) page).2.length,
                s.q.isShutdown⟩,
              s.workers.set w (.processing page (process_vacancies_response (some j) page).1),
              some j.pages,
              (process_vacancies_response (some j) page).2.reverse.map .putUnit
                ++ .fetchCall w page :: s.trace⟩
        else
          some ⟨s.q, s.workers.set w
              (.processing page (process_vacancies_response (some j) page).1),
            s.reportedPages, .fetchCall w page :: s.trace⟩
  | some (.processing page vs), i =>
    match vs, i with
    | [], .tick =>
        -- item loop exhausted, fall through to `task_done`
        some ⟨s.q, s.workers.set w (.atTaskDone page), s.reportedPages, s.trace⟩
    | v :: rest, .tick =>
      match itemDecision env v with
      | .skipWords =>
          some ⟨s.q, s.workers.set w (.processing page rest), s.reportedPages,
            .skipWordsEv w v.id :: s.trace⟩
      | .skipIds =>
          some ⟨s.q, s.workers.set w (.processing page rest), s.reportedPages,
            .skipIdsEv w v.id :: s.trace⟩
      | .testRun =>
          some ⟨s.q, s.workers.set w (.processing page rest), s.reportedPages,
            .testRunEv w v.id :: s.trace⟩
      | .act => none
    | v :: rest, .resp r =>
      match itemDecision env v with
      | .act =>
        match apply_to_vacancy r with
        | (.limitExceeded, _) =>
            -- `except HH_Limit_Exceeded_Error: queue.shutdown(immediate=True); break`
            -- then `queue.task_done()` — one synchronous block.  The
            -- immediate shutdown drains every queued unit, decrementing
            -- `unfinished` per drained unit (guarded at 0).
            if s.q.unfinished - s.q.items.length = 0 then
              -- `task_done` would raise `ValueError` (unreachable)
              some ⟨⟨[], 0, true⟩, s.workers.set w .crashed, s.reportedPages,
                .shutdownEv :: .actionCall w v.id :: s.trace⟩
            else
              some ⟨⟨[], s.q.unfinished - s.q.items.length - 1, true⟩,
                s.workers.set w .atGet, s.reportedPages,
                .taskDoneEv w page :: .shutdownEv :: .actionCall w v.id :: s.trace⟩
        | (.returned u, msg) =>
          match u with
          | some url =>
              if url = "" then
                -- 201 without a `Location` header: falsy url, the
                -- Notion recorder is not invoked
                some ⟨s.q, s.workers.set w (.processing page rest), s.reportedPages,
                  .actionCall w v.id :: s.trace⟩
              else
                -- `add_apply_to_notion` invoked (internally a no-op
                -- when Notion is disabled)
                some ⟨s.q, s.workers.set w (.processing page rest), s.reportedPages,
                  .recordCall w v.id url :: .actionCall w v.id :: s.trace⟩
          | none =>
              some ⟨s.q, s.workers.set w (.processing page rest), s.reportedPages,
                .applyFailed w v.id (msg.getD "") :: .actionCall w v.id :: s.trace⟩
      | _ => none
    | _, _ => none
  | some (.atTaskDone page), .tick =>
      if s.q.unfinished = 0 then
        -- `task_done` raises `ValueError` (unreachable)
        some ⟨s.q, s.workers.set w .crashed, s.reportedPages, s.trace⟩
      else
        some ⟨⟨s.q.items, s.q.unfinished - 1, s.q.isShutdown⟩,
          s.workers.set w .atGet, s.reportedPages,
          .taskDoneEv w page :: s.trace⟩
  | _, _ => none

/-- One step of the pool: some worker, some input. -/
def Step (env : Env) (s s' : Sys) : Prop :=
  ∃ w i, stepFn env s w i = some s'

/-- Initial state of `main`: unit 0 enqueued, `n` workers about to call
`get`. -/
def init (n : Nat) : Sys :=
  ⟨⟨[0], 1, false⟩, List.replicate n .atGet, none, []⟩

/-- States the pool with `n` workers can reach. -/
def Reachable (env : Env) (n : Nat) (s : Sys) : Prop :=
  Relation.ReflTransGen (Step env) (init n) s

/-! ### Accounting helpers for the invariants -/
/-- The page a worker currently holds (dequeued, not yet `task_done`). -/
def phasePage : Phase → Option Nat
  | .atFetch p => some p
  | .processing p _ => some p
  | .atTaskDone p => some p
  | _ => none

/-- Number of in-flight workers. -/
def holders (ws : List Phase) : Nat :=
  ws.countP (fun ph => (phasePage ph).isSome)

/-- Number of workers currently holding page `p`. -/
def holdersOf (ws : List Phase) (p : Nat) : Nat :=
  ws.countP (fun ph => phasePage ph == some p)

/-- Number of `putUnit p` events in a trace. -/
def putCount (t : List Event) (p : Nat) : Nat :=
  t.count (.putUnit p)

/-- Number of `taskDoneEv _ p` events in a trace. -/
def doneCount (t : List Event) (p : Nat) : Nat :=
  t.countP (fun e => match e with | .taskDoneEv _ q => q == p | _ => false)

/-- The initial enqueue of unit 0 done by `main` before the trace
starts. -/
def seed (p : Nat) : Nat := if p = 0 then 1 else 0

/-- Events of the per-item pipeline (filter skips, action calls,
recording calls, soft-failure logs). -/
def isItemEvent : Event → Bool
  | .skipWordsEv _ _ => true
  | .skipIdsEv _ _ => true
  | .testRunEv _ _ => true
  | .actionCall _ _ => true
  | .applyFailed _ _ _ => true
  | .recordCall _ _ _ => true
  | _ => false

/-! ### Trace-ordering predicates

The trace lists events newest first, so in a decomposition
`trace = a ++ x :: b` the events of `a` happened after `x` and those of
`b` before `x`. -/
/-- After any `shutdownEv` in the trace, no unit is ever dequeued. -/
def NoGetAfterShut (t : List Event) : Prop :=
  ∀ a b, t = a ++ Event.shutdownEv :: b → ∀ x ∈ a, ∀ w p, x ≠ .getUnit w p

/-- Every event matched by `trig` is preceded (deeper in the list) by a
suffix satisfying `P` for the matched data. -/
def EvAfter {γ : Type} (trig : Event → Option γ) (P : γ → List Event → Prop)
    (t : List Event) : Prop :=
  ∀ a x b, t = a ++ x :: b → ∀ g, trig x = some g → P g b

/-- Trigger for listing fetches: the worker and page of a `fetchCall`. -/
def fetchTrig : Event → Option (Nat × Nat)
  | .fetchCall w p => some (w, p)
  | _ => none

/-- Trigger for item actions: the worker of an `actionCall`. -/
def actionTrig : Event → Option Nat
  | .actionCall w _ => some w
  | _ => none

/-- Trigger for `task_done` on unit 0. -/
def done0Trig : Event → Option Unit
  | .taskDoneEv _ p => if p = 0 then some () else none
  | _ => none

/-! ### The pool invariant -/
/-- Inductive invariant of the transition system.  The clauses carry
everything the temporal claims need: the `join` accounting, the
shutdown behaviour, exactly-once seeding, per-unit conservation, the
lifecycle of unit 0, and the trace-ordering facts. -/
structure Inv (s : Sys) : Prop where
  /-- `unfinished_tasks` counts queued units plus in-flight units. -/
  acct : s.q.unfinished = s.q.items.length + holders s.workers
  /-- After an immediate shutdown the queue is drained. -/
  shut_empty : s.q.isShutdown = true → s.q.items = []
  /-- The shutdown flag and the `shutdownEv` trace event agree. -/
  shut_trace : Event.shutdownEv ∈ s.trace ↔ s.q.isShutdown = true
  /-- Exactly-once seeding: once page 0 reported `P` pages, the trace
  holds exactly one `putUnit p` for each `1 ≤ p < P` and none
  otherwise; before that, none at all. -/
  put_counts : ∀ p, putCount s.trace p =
      (match s.reportedPages with
       | some P => if 1 ≤ p ∧ p < P then 1 else 0
       | none => 0)
  /-- While no shutdown happened: every unit ever enqueued is queued,
  in flight, or done, exactly once. -/
  conserve : s.q.isShutdown = false → ∀ p,
      seed p + putCount s.trace p
        = s.q.items.count p + holdersOf s.workers p + doneCount s.trace p
  /-- Unit 0 is queued, in flight, or done — exactly once, always. -/
  zero_total : s.q.items.count 0 + holdersOf s.workers 0 + doneCount s.trace 0 = 1
  /-- Once the page count is known, unit 0 is neither queued nor about
  to be fetched again. -/
  rep_zero : s.reportedPages ≠ none →
      s.q.items.count 0 = 0 ∧ ∀ ph ∈ s.workers, ph ≠ .atFetch 0
  /-- Shutdown only happens after page 0 succeeded. -/
  shut_rep : s.q.isShutdown = true → s.reportedPages ≠ none
  /-- A worker holding a nonzero page got it from the seeding of a
  successful page 0. -/
  holder_rep : ∀ ph ∈ s.workers, ∀ p, phasePage ph = some p → p ≠ 0 →
      ∃ P, s.reportedPages = some P ∧ 1 ≤ p ∧ p < P
  /-- A worker iterating items of page 0 implies page 0 succeeded. -/
  proc0_rep : ∀ ph ∈ s.workers, ∀ vs, ph = .processing 0 vs →
      s.reportedPages ≠ none
  /-- Queued nonzero units come from the seeding of page 0. -/
  item_rep : ∀ p ∈ s.q.items, p ≠ 0 →
      ∃ P, s.reportedPages = some P ∧ 1 ≤ p ∧ p < P
  /-- No worker ever dies of an unexpected exception. -/
  no_crash : ∀ ph ∈ s.workers, ph ≠ .crashed
  /-- No dequeue ever happens after a shutdown. -/
  no_get : NoGetAfterShut s.trace
  /-- Every listing fetch is preceded by the dequeue of its unit by the
  same worker. -/
  fetch_after_get : EvAfter fetchTrig (fun g b => Event.getUnit g.1 g.2 ∈ b) s.trace
  /-- Every item action is preceded by a dequeue by the same worker. -/
  action_after_get : EvAfter actionTrig (fun w b => ∃ p, Event.getUnit w p ∈ b) s.trace
  /-- A worker holding page `p` dequeued it earlier. -/
  holder_got : ∀ w ph, s.workers[w]? = some ph → ∀ p, phasePage ph = some p →
      Event.getUnit w p ∈ s.trace
  /-- All pages 1..P-1 are enqueued strictly before `task_done` on
  unit 0. -/
  puts_before_done0 : ∀ P, s.reportedPages = some P →
      EvAfter done0Trig
        (fun _ b => ∀ p, 1 ≤ p → p < P → Event.putUnit p ∈ b) s.trace
  /-- Before page 0 succeeds no item is ever filtered, acted on, or
  recorded. -/
  none_no_items : s.reportedPages = none → ∀ e ∈ s.trace, isItemEvent e = false
  /-- The recorder is only ever invoked with a nonempty negotiation
  url. -/
  record_urls : ∀ w vid url, Event.recordCall w vid url ∈ s.trace → url ≠ ""

/-- Test-run configuration, no blacklists. -/
def envA : Env := ⟨[], [], true, true, .similar⟩

/-- Live configuration, no blacklists. -/
def envB : Env := ⟨[], [], false, true, .similar⟩

/-- A sample vacancy. -/
def vacB : Vac := ⟨"77", "python dev", "acme", "http://v"⟩

/-- Scenario A (one worker, test run): page 0 succeeds with 2 total
pages and no items; page 1's fetch fails; both units get marked done. -/
def sA1 : Sys := ⟨⟨[], 1, false⟩, [.atFetch 0], none, [.getUnit 0 0]⟩

def sA2 : Sys := ⟨⟨[1], 2, false⟩, [.processing 0 []], some 2,
  [.putUnit 1, .fetchCall 0 0, .getUnit 0 0]⟩

def sA3 : Sys := ⟨⟨[1], 2, false⟩, [.atTaskDone 0], some 2,
  [.putUnit 1, .fetchCall 0 0, .getUnit 0 0]⟩

def sA4 : Sys := ⟨⟨[1], 1, false⟩, [.atGet], some 2,
  [.taskDoneEv 0 0, .putUnit 1, .fetchCall 0 0, .getUnit 0 0]⟩

def sA5 : Sys := ⟨⟨[], 1, false⟩, [.atFetch 1], some 2,
  [.getUnit 0 1, .taskDoneEv 0 0, .putUnit 1, .fetchCall 0 0, .getUnit 0 0]⟩

def sA6 : Sys := ⟨⟨[], 1, false⟩, [.atTaskDone 1], some 2,
  [.fetchFail 0 1, .fetchCall 0 1, .getUnit 0 1, .taskDoneEv 0 0, .putUnit 1,
    .fetchCall 0 0, .getUnit 0 0]⟩

def sA7 : Sys := ⟨⟨[], 0, false⟩, [.atGet], some 2,
  [.taskDoneEv 0 1, .fetchFail 0 1, .fetchCall 0 1, .getUnit 0 1,
    .taskDoneEv 0 0, .putUnit 1, .fetchCall 0 0, .getUnit 0 0]⟩

/-- Scenario B (one worker, live): page 0 succeeds with 3 pages and one
item; applying to it hits the quota limit; the worker shuts the queue
down and exits. -/
def sB1 : Sys := ⟨⟨[], 1, false⟩, [.atFetch 0], none, [.getUnit 0 0]⟩

def sB2 : Sys := ⟨⟨[1, 2], 3, false⟩, [.processing 0 [vacB]], some 3,
  [.putUnit 2, .putUnit 1, .fetchCall 0 0, .getUnit 0 0]⟩

def sB3 : Sys := ⟨⟨[], 0, true⟩, [.atGet], some 3,
  [.taskDoneEv 0 0, .shutdownEv, .actionCall 0 "77", .putUnit 2, .putUnit 1,
    .fetchCall 0 0, .getUnit 0 0]⟩

def sB4 : Sys := ⟨⟨[], 0, true⟩, [.exited], some 3,
  [.workerExit 0, .taskDoneEv 0 0, .shutdownEv, .actionCall 0 "77", .putUnit 2,
    .putUnit 1, .fetchCall 0 0, .getUnit 0 0]⟩

/-- Scenario C (one worker, live): the page-0 fetch itself fails; the
unit is marked done with nothing processed. -/
def sC2 : Sys := ⟨⟨[], 1, false⟩, [.atTaskDone 0], none,
  [.fetchFail 0 0, .fetchCall 0 0, .getUnit 0 0]⟩

def sC3 : Sys := ⟨⟨[], 0, false⟩, [.atGet], none,
  [.taskDoneEv 0 0, .fetchFail 0 0, .fetchCall 0 0, .getUnit 0 0]⟩

@[simp] theorem phasePage_atGet : phasePage .atGet = none := rfl

@[simp] theorem phasePage_atFetch (p : Nat) : phasePage (.atFetch p) = some p := rfl

@[simp] theorem phasePage_processing (p : Nat) (vs : List Vac) :
    phasePage (.processing p vs) = some p := rfl

@[simp] theorem phasePage_atTaskDone (p : Nat) : phasePage (.atTaskDone p) = some p := rfl

@[simp] theorem phasePage_exited : phasePage .exited = none := rfl

@[simp] theorem phasePage_crashed : phasePage .crashed = none := rfl

@[simp] theorem putCount_nil (p : Nat) : putCount [] p = 0 := rfl

@[simp] theorem putCount_cons (e : Event) (t : List Event) (p : Nat) :
    putCount (e :: t) p = putCount t p + (if e = .putUnit p then 1 else 0) := by
  simp only [putCount, List.count_cons, beq_iff_eq]

@[simp] theorem putCount_append (t1 t2 : List Event) (p : Nat) :
    putCount (t1 ++ t2) p = putCount t1 p + putCount t2 p := by
  simp [putCount, List.count_append]

@[simp] theorem doneCount_nil (p : Nat) : doneCount [] p = 0 := rfl

@[simp] theorem doneCount_cons (e : Event) (t : List Event) (p : Nat) :
    doneCount (e :: t) p = doneCount t p
      + (match e with | .taskDoneEv _ q => if q = p then 1 else 0 | _ => 0) := by
  simp only [doneCount, List.countP_cons]
  congr 1
  cases e <;> simp [beq_iff_eq]

@[simp] theorem doneCount_append (t1 t2 : List Event) (p : Nat) :
    doneCount (t1 ++ t2) p = doneCount t1 p + doneCount t2 p := by
  simp [doneCount, List.countP_append]

/-! ### Generic list helpers -/
/-- Updating index `w` (currently `y`) to `x` changes a `countP` by the
difference of the two indicator values. -/
theorem countP_set {α : Type} (p : α → Bool) : ∀ (l : List α) (w : Nat) (x y : α),
    l[w]? = some y →
    (l.set w x).countP p + (if p y then 1 else 0)
      = l.countP p + (if p x then 1 else 0)
  | [], w, x, y, h => by simp at h
  | a :: l, 0, x, y, h => by
      simp only [List.getElem?_cons_zero, Option.some.injEq] at h
      subst h
      simp [List.countP_cons]
      omega
  | a :: l, w + 1, x, y, h => by
      simp only [List.getElem?_cons_succ] at h
      have ih := countP_set p l w x y h
      simp only [List.set]
      simp [List.countP_cons]
      omega

/-- Membership in the page range enqueued by `fill_queue`. -/
theorem fill_queue_pages_mem {p start fin : Nat} :
    p ∈ fill_queue_pages start fin ↔ start ≤ p ∧ p < fin := by
  unfold fill_queue_pages
  rw [List.mem_range'_1]
  omega

/-- The pages `fill_queue` enqueues: every page of the range exactly once. -/
theorem fill_queue_pages_count (start fin p : Nat) :
    (fill_queue_pages start fin).count p = if start ≤ p ∧ p < fin then 1 else 0 := by
  by_cases h : start ≤ p ∧ p < fin
  · rw [if_pos h]
    exact List.count_eq_one_of_mem (List.nodup_range' start (fin - start))
      (fill_queue_pages_mem.mpr h)
  · rw [if_neg h]
    exact List.count_eq_zero_of_not_mem (fun hm => h (fill_queue_pages_mem.mp hm))

theorem noGetAfterShut_nil : NoGetAfterShut [] := by
  intro a b h
  cases a <;> simp_all

theorem noGetAfterShut_cons {t : List Event} (e : Event)
    (h : NoGetAfterShut t) (he : ∀ w p, e ≠ .getUnit w p) :
    NoGetAfterShut (e :: t) := by
  intro a b hab x hx w p
  cases a with
  | nil => simp at hx
  | cons a0 a' =>
      rw [List.cons_append] at hab
      injection hab with h1 h2
      rcases List.mem_cons.mp hx with rfl | hx'
      · exact h1 ▸ he w p
      · exact h a' b h2 x hx' w p

theorem noGetAfterShut_consGet {t : List Event} (w0 p0 : Nat)
    (hs : Event.shutdownEv ∉ t) :
    NoGetAfterShut (Event.getUnit w0 p0 :: t) := by
  intro a b hab x hx w p
  cases a with
  | nil => simp at hab
  | cons a0 a' =>
      rw [List.cons_append] at hab
      injection hab with h1 h2
      exact absurd (show Event.shutdownEv ∈ t by rw [h2]; simp) hs

theorem noGetAfterShut_prepend {t : List Event} (evs : List Event)
    (h : NoGetAfterShut t) (he : ∀ e ∈ evs, ∀ w p, e ≠ .getUnit w p) :
    NoGetAfterShut (evs ++ t) := by
  induction evs with
  | nil => simpa
  | cons e evs ih =>
      rw [List.cons_append]
      exact noGetAfterShut_cons e (ih (fun e' he' => he e' (by simp [he'])))
        (he e (by simp))

theorem evAfter_nil {γ : Type} {trig : Event → Option γ} {P} :
    EvAfter trig P [] := by
  intro a x b h
  cases a <;> simp_all

theorem evAfter_cons {γ : Type} {trig : Event → Option γ} {P} {t : List Event}
    (e : Event) (h : EvAfter trig P t) (he : ∀ g, trig e = some g → P g t) :
    EvAfter trig P (e :: t) := by
  intro a x b hab g hg
  cases a with
  | nil =>
      injection hab with h1 h2
      subst h2
      exact he g (h1 ▸ hg)
  | cons a0 a' =>
      rw [List.cons_append] at hab
      injection hab with h1 h2
      exact h a' x b h2 g hg

theorem evAfter_prepend {γ : Type} {trig : Event → Option γ} {P} {t : List Event}
    (evs : List Event) (h : EvAfter trig P t) (he : ∀ e ∈ evs, trig e = none) :
    EvAfter trig P (evs ++ t) := by
  induction evs with
  | nil => simpa
  | cons e evs ih =>
      rw [List.cons_append]
      refine evAfter_cons e (ih (fun e' he' => he e' (by simp [he']))) ?_
      intro g hg
      rw [he e (by simp)] at hg
      cases hg

/-- The initial state satisfies the invariant. -/
theorem inv_init (n : Nat) : Inv (init n) := by
  have hrep : ∀ (p : Phase → Bool), p Phase.atGet = false →
      (List.replicate n Phase.atGet).countP p = 0 := by
    intro p hp
    rw [List.countP_eq_zero]
    intro a ha
    rw [List.eq_of_mem_replicate ha]
    simp [hp]
  have hhold : holders (init n).workers = 0 := hrep _ (by simp)
  have hholdOf : ∀ p, holdersOf (init n).workers p = 0 :=
    fun p => hrep _ (by simp)
  refine ⟨?_, ?_, ?_, ?_, ?_, ?_, ?_, ?_, ?_, ?_, ?_, ?_, ?_, ?_, ?_, ?_, ?_, ?_, ?_⟩
  · rw [hhold]
    simp [init]
  · simp [init]
  · simp [init]
  · intro p
    simp [init]
  · intro _ p
    rw [hholdOf p]
    by_cases hp : p = 0 <;> simp [init, seed, hp]
  · rw [hholdOf 0]
    simp [init]
  · simp [init]
  · simp [init]
  · intro ph hph p hpp _
    rw [List.eq_of_mem_replicate hph] at hpp
    simp [phasePage] at hpp
  · intro ph hph vs hvs
    rw [List.eq_of_mem_replicate hph] at hvs
    simp at hvs
  · intro p hp hne
    simp [init] at hp
    exact absurd hp hne
  · intro ph hph
    rw [List.eq_of_mem_replicate hph]
    simp
  · exact noGetAfterShut_nil
  · exact evAfter_nil
  · exact evAfter_nil
  · intro w ph hph p hpp
    have hm := List.getElem?_mem hph
    rw [List.eq_of_mem_replicate hm] at hpp
    simp [phasePage] at hpp
  · intro P hP
    simp [init] at hP
  · intro _ e he
    simp [init] at he
  · intro w vid url h
    simp [init] at h

/-! ### Preservation of the invariant, one lemma per kind of step -/
/-- Bookkeeping of `countP` for replacing worker `w`'s phase, applied to
the in-flight counter. -/
theorem holders_set {ws : List Phase} {w : Nat} {ph : Phase} (ph' : Phase)
    (hw : ws[w]? = some ph) :
    holders (ws.set w ph') + (if (phasePage ph).isSome then 1 else 0)
      = holders ws + (if (phasePage ph').isSome then 1 else 0) :=
  countP_set _ _ _ _ _ hw

/-- Bookkeeping of `countP` for replacing worker `w`'s phase, applied to
the per-page in-flight counter. -/
theorem holdersOf_set {ws : List Phase} {w : Nat} {ph : Phase} (ph' : Phase)
    (hw : ws[w]? = some ph) (p : Nat) :
    holdersOf (ws.set w ph') p + (if phasePage ph = some p then 1 else 0)
      = holdersOf ws p + (if phasePage ph' = some p then 1 else 0) := by
  have h := countP_set (fun x => phasePage x == some p) ws w ph' ph hw
  simpa [beq_iff_eq] using h

/-- The `putUnit` events contributed by a block of enqueues. -/
theorem putCount_map_putUnit (l : List Nat) (p : Nat) :
    putCount (l.map .putUnit) p = l.count p := by
  induction l with
  | nil => rfl
  | cons a l ih =>
      simp only [List.map_cons, putCount_cons, ih, List.count_cons, beq_iff_eq]
      by_cases hap : a = p <;> simp [hap]

/-- A block of enqueues contributes no `taskDoneEv`. -/
theorem doneCount_map_putUnit (l : List Nat) (p : Nat) :
    doneCount (l.map .putUnit) p = 0 := by
  induction l with
  | nil => rfl
  | cons a l ih => simpa using ih

/-- A successful `queue.get`: the worker takes the head unit. -/
theorem inv_step_get {s : Sys} (hI : Inv s) {w : Nat}
    {page : Nat} {rest : List Nat}
    (hw : s.workers[w]? = some .atGet) (hq : s.q.items = page :: rest) :
    Inv ⟨⟨rest, s.q.unfinished, s.q.isShutdown⟩,
      s.workers.set w (.atFetch page), s.reportedPages,
      .getUnit w page :: s.trace⟩ := by
  have hsd : s.q.isShutdown = false := by
    by_contra hx
    have := hI.shut_empty (by revert hx; cases s.q.isShutdown <;> simp)
    rw [hq] at this
    cases this
  have hnoshut : Event.shutdownEv ∉ s.trace := fun hc => by
    rw [hI.shut_trace.mp hc] at hsd
    cases hsd
  have hpagemem : page ∈ s.q.items := by rw [hq]; simp
  have hwlt : w < s.workers.length := by
    by_contra hge
    rw [List.getElem?_eq_none (Nat.le_of_not_lt hge)] at hw
    cases hw
  refine ⟨?_, ?_, ?_, ?_, ?_, ?_, ?_, ?_, ?_, ?_, ?_, ?_, ?_, ?_, ?_, ?_, ?_, ?_, ?_⟩
  · show s.q.unfinished = rest.length + holders (s.workers.set w (.atFetch page))
    have hhold := holders_set (.atFetch page) hw
    simp at hhold
    have hacct := hI.acct
    rw [hq] at hacct
    simp at hacct
    omega
  · intro hx
    rw [hsd] at hx
    cases hx
  · show Event.shutdownEv ∈ Event.getUnit w page :: s.trace ↔ _
    simp only [List.mem_cons]
    constructor
    · rintro (hx | hx)
      · cases hx
      · exact hI.shut_trace.mp hx
    · intro hx
      rw [hx] at hsd
      cases hsd
  · intro p
    simp only [putCount_cons]
    simpa using hI.put_counts p
  · intro _ p
    have hcons := hI.conserve hsd p
    have hof := holdersOf_set (.atFetch page) hw p
    simp at hof
    rw [hq] at hcons
    show seed p + putCount (Event.getUnit w page :: s.trace) p
      = rest.count p + holdersOf (s.workers.set w (.atFetch page)) p
        + doneCount (Event.getUnit w page :: s.trace) p
    simp only [putCount_cons, doneCount_cons]
    simp only [List.count_cons, beq_iff_eq] at hcons
    by_cases hpp : page = p
    · simp [hpp] at hof hcons ⊢
      omega
    · simp [hpp] at hof hcons ⊢
      omega
  · have h0 := hI.zero_total
    have hof := holdersOf_set (.atFetch page) hw 0
    simp at hof
    rw [hq] at h0
    show rest.count 0 + holdersOf (s.workers.set w (.atFetch page)) 0
      + doneCount (Event.getUnit w page :: s.trace) 0 = 1
    simp only [doneCount_cons]
    simp only [List.count_cons, beq_iff_eq] at h0
    by_cases hp0 : page = 0
    · simp [hp0] at hof h0 ⊢
      omega
    · simp [hp0] at hof h0 ⊢
      omega
  · intro hrep
    obtain ⟨hc0, hnof⟩ := hI.rep_zero hrep
    rw [hq] at hc0
    simp only [List.count_cons, beq_iff_eq] at hc0
    by_cases hpage : page = 0
    · rw [hpage] at hc0
      simp at hc0
    · constructor
      · simpa [hpage] using hc0
      · intro ph hph
        rcases List.mem_or_eq_of_mem_set hph with hold | rfl
        · exact hnof ph hold
        · intro hx
          injection hx with hx
          exact hpage hx
  · exact hI.shut_rep
  · intro ph hph p hpp hp0
    rcases List.mem_or_eq_of_mem_set hph with hold | rfl
    · exact hI.holder_rep ph hold p hpp hp0
    · simp at hpp
      subst hpp
      exact hI.item_rep page hpagemem hp0
  · intro ph hph vs hvs
    rcases List.mem_or_eq_of_mem_set hph with hold | rfl
    · exact hI.proc0_rep ph hold vs hvs
    · cases hvs
  · intro p hp hp0
    exact hI.item_rep p (by rw [hq]; exact List.mem_cons_of_mem _ hp) hp0
  · intro ph hph
    rcases List.mem_or_eq_of_mem_set hph with hold | rfl
    · exact hI.no_crash ph hold
    · simp
  · exact noGetAfterShut_consGet w page hnoshut
  · exact evAfter_cons _ hI.fetch_after_get (by intro g hg; cases hg)
  · exact evAfter_cons _ hI.action_after_get (by intro g hg; cases hg)
  · intro w' ph hph p hpp
    by_cases hww : w = w'
    · subst hww
      rw [List.getElem?_set_self hwlt] at hph
      injection hph with hph
      subst hph
      simp at hpp
      subst hpp
      simp
    · rw [List.getElem?_set_ne hww] at hph
      exact List.mem_cons_of_mem _ (hI.holder_got w' ph hph p hpp)
  · intro P hP
    exact evAfter_cons _ (hI.puts_before_done0 P hP)
      (by intro g hg; simp [done0Trig] at hg)
  · intro hrep e he
    rcases List.mem_cons.mp he with rfl | he2
    · simp [isItemEvent]
    · exact hI.none_no_items hrep e he2
  · intro w' vid url h
    rcases List.mem_cons.mp h with hx | h2
    · cases hx
    · exact hI.record_urls w' vid url h2

/-- Membership of `shutdownEv` is unchanged by prepending other events. -/
theorem shut_mem_prepend {t : List Event} {b : Bool} (evs : List Event)
    (he : ∀ e ∈ evs, e ≠ .shutdownEv)
    (h : Event.shutdownEv ∈ t ↔ b = true) :
    Event.shutdownEv ∈ evs ++ t ↔ b = true := by
  rw [List.mem_append]
  constructor
  · rintro (hx | hx)
    · exact absurd rfl (he _ hx)
    · exact h.mp hx
  · intro hb
    exact Or.inr (h.mpr hb)

/-- Preservation for every step that leaves the queue, the reported
page count and the worker's held page unchanged: the worker moves from
`ph` to `ph'` and events `evs` are prepended to the trace.  The
trace-ordering clauses that depend on the new events are taken as
hypotheses. -/
theorem inv_step_local {s : Sys} (hI : Inv s) {w : Nat} {ph : Phase} (ph' : Phase)
    (hw : s.workers[w]? = some ph)
    (hpage : phasePage ph' = phasePage ph)
    (hcrash : ph' ≠ .crashed)
    (hfetch0 : ph' ≠ .atFetch 0)
    (hproc0 : ∀ vs, ph' = .processing 0 vs → s.reportedPages ≠ none)
    (evs : List Event)
    (hput : ∀ p, putCount evs p = 0)
    (hdone : ∀ p, doneCount evs p = 0)
    (hnotshut : ∀ e ∈ evs, e ≠ .shutdownEv)
    (hnotget : ∀ e ∈ evs, ∀ w2 p2, e ≠ .getUnit w2 p2)
    (hfa : EvAfter fetchTrig (fun g b => Event.getUnit g.1 g.2 ∈ b) (evs ++ s.trace))
    (haa : EvAfter actionTrig (fun w2 b => ∃ p2, Event.getUnit w2 p2 ∈ b)
      (evs ++ s.trace))
    (hpb : ∀ P, s.reportedPages = some P →
      EvAfter done0Trig (fun _ b => ∀ p, 1 ≤ p → p < P → Event.putUnit p ∈ b)
        (evs ++ s.trace))
    (hni : s.reportedPages = none → ∀ e ∈ evs, isItemEvent e = false)
    (hru : ∀ w2 vid url, Event.recordCall w2 vid url ∈ evs → url ≠ "") :
    Inv ⟨s.q, s.workers.set w ph', s.reportedPages, evs ++ s.trace⟩ := by
  have hwlt : w < s.workers.length := by
    by_contra hge
    rw [List.getElem?_eq_none (Nat.le_of_not_lt hge)] at hw
    cases hw
  refine ⟨?_, ?_, ?_, ?_, ?_, ?_, ?_, ?_, ?_, ?_, ?_, ?_, ?_, ?_, ?_, ?_, ?_, ?_, ?_⟩
  · show s.q.unfinished = s.q.items.length + holders (s.workers.set w ph')
    have hhold := holders_set ph' hw
    rw [hpage] at hhold
    have := hI.acct
    omega
  · exact hI.shut_empty
  · exact shut_mem_prepend evs hnotshut hI.shut_trace
  · intro p
    show putCount (evs ++ s.trace) p = _
    rw [putCount_append, hput p]
    simpa using hI.put_counts p
  · intro hsd p
    have hof := holdersOf_set ph' hw p
    rw [hpage] at hof
    have hcons := hI.conserve hsd p
    show seed p + putCount (evs ++ s.trace) p
      = s.q.items.count p + holdersOf (s.workers.set w ph') p
        + doneCount (evs ++ s.trace) p
    rw [putCount_append, doneCount_append, hput p, hdone p]
    omega
  · have hof := holdersOf_set ph' hw 0
    rw [hpage] at hof
    have h0 := hI.zero_total
    show s.q.items.count 0 + holdersOf (s.workers.set w ph') 0
      + doneCount (evs ++ s.trace) 0 = 1
    rw [doneCount_append, hdone 0]
    omega
  · intro hrep
    obtain ⟨hc0, hnof⟩ := hI.rep_zero hrep
    refine ⟨hc0, ?_⟩
    intro x hx
    rcases List.mem_or_eq_of_mem_set hx with hold | rfl
    · exact hnof x hold
    · exact hfetch0
  · exact hI.shut_rep
  · intro x hx p hpp hp0
    rcases List.mem_or_eq_of_mem_set hx with hold | rfl
    · exact hI.holder_rep x hold p hpp hp0
    · exact hI.holder_rep ph (List.getElem?_mem hw) p (by rw [← hpage]; exact hpp) hp0
  · intro x hx vs hvs
    rcases List.mem_or_eq_of_mem_set hx with hold | rfl
    · exact hI.proc0_rep x hold vs hvs
    · exact hproc0 vs hvs
  · exact hI.item_rep
  · intro x hx
    rcases List.mem_or_eq_of_mem_set hx with hold | rfl
    · exact hI.no_crash x hold
    · exact hcrash
  · exact noGetAfterShut_prepend evs hI.no_get hnotget
  · exact hfa
  · exact haa
  · intro w' x hx p hpp
    rw [List.mem_append]
    by_cases hww : w = w'
    · subst hww
      rw [List.getElem?_set_self hwlt] at hx
      injection hx with hx
      subst hx
      exact Or.inr (hI.holder_got w ph hw p (by rw [← hpage]; exact hpp))
    · rw [List.getElem?_set_ne hww] at hx
      exact Or.inr (hI.holder_got w' x hx p hpp)
  · exact hpb
  · intro hrep e he
    rcases List.mem_append.mp he with hx | hx
    · exact hni hrep e hx
    · exact hI.none_no_items hrep e hx
  · intro w' vid url h
    rcases List.mem_append.mp h with hx | hx
    · exact hru w' vid url hx
    · exact hI.record_urls w' vid url hx

/-- A worker iterating a nonempty item list implies page 0 already
succeeded (its own page was either page 0 or seeded from it). -/
theorem processing_rep_ne {s : Sys} (hI : Inv s) {w page : Nat}
    {v : Vac} {vs : List Vac}
    (hw : s.workers[w]? = some (.processing page (v :: vs))) :
    s.reportedPages ≠ none := by
  by_cases hp : page = 0
  · subst hp
    exact hI.proc0_rep _ (List.getElem?_mem hw) _ rfl
  · obtain ⟨P, hP, _⟩ := hI.holder_rep _ (List.getElem?_mem hw) page (by simp) hp
    rw [hP]
    simp

/-- The step where `queue.get` raises `QueueShutDown`: the worker coroutine ends. -/
theorem inv_step_exitW {s : Sys} (hI : Inv s) {w : Nat}
    (hw : s.workers[w]? = some .atGet) :
    Inv ⟨s.q, s.workers.set w .exited, s.reportedPages,
      .workerExit w :: s.trace⟩ := by
  refine inv_step_local hI (.exited) hw rfl (by simp) (by simp) (by simp)
    [.workerExit w] (by intro p; simp) (by intro p; simp)
    (by simp) (by simp)
    (evAfter_cons _ hI.fetch_after_get (by intro g hg; simp [fetchTrig] at hg))
    (evAfter_cons _ hI.action_after_get (by intro g hg; simp [actionTrig] at hg))
    (fun P hP => evAfter_cons _ (hI.puts_before_done0 P hP)
      (by intro g hg; simp [done0Trig] at hg))
    ?_ (by intro w2 vid url hmem; simp at hmem)
  intro _ e he
  simp at he
  subst he
  rfl

/-- A failed (non-200) listing read: log, zero items, straight to
`task_done`. -/
theorem inv_step_fetch_fail {s : Sys} (hI : Inv s) {w page : Nat}
    (hw : s.workers[w]? = some (.atFetch page)) :
    Inv ⟨s.q, s.workers.set w (.atTaskDone page), s.reportedPages,
      .fetchFail w page :: .fetchCall w page :: s.trace⟩ := by
  have hgot : Event.getUnit w page ∈ s.trace :=
    hI.holder_got w _ hw page rfl
  refine inv_step_local hI (.atTaskDone page) hw rfl (by simp) (by simp)
    (by simp) [.fetchFail w page, .fetchCall w page]
    (by intro p; simp) (by intro p; simp) (by simp) (by simp)
    (evAfter_cons _ (evAfter_cons _ hI.fetch_after_get ?_)
      (by intro g hg; simp [fetchTrig] at hg))
    (evAfter_cons _ (evAfter_cons _ hI.action_after_get
        (by intro g hg; simp [actionTrig] at hg))
      (by intro g hg; simp [actionTrig] at hg))
    (fun P hP => evAfter_cons _ (evAfter_cons _ (hI.puts_before_done0 P hP)
        (by intro g hg; simp [done0Trig] at hg))
      (by intro g hg; simp [done0Trig] at hg))
    ?_ (by intro w2 vid url hmem; simp at hmem)
  · intro g hg
    simp [fetchTrig] at hg
    subst hg
    simpa using hgot
  · intro _ e he
    rcases List.mem_cons.mp he with rfl | he2
    · rfl
    · simp at he2
      subst he2
      rfl

/-- A successful fetch of a nonzero page: start iterating its items. -/
theorem inv_step_fetch_other {s : Sys} (hI : Inv s) {w page : Nat}
    (vs : List Vac)
    (hw : s.workers[w]? = some (.atFetch page)) (hp0 : page ≠ 0) :
    Inv ⟨s.q, s.workers.set w (.processing page vs), s.reportedPages,
      .fetchCall w page :: s.trace⟩ := by
  have hgot : Event.getUnit w page ∈ s.trace :=
    hI.holder_got w _ hw page rfl
  refine inv_step_local hI (.processing page vs) hw rfl (by simp) (by simp)
    ?_ [.fetchCall w page]
    (by intro p; simp) (by intro p; simp) (by simp) (by simp)
    (evAfter_cons _ hI.fetch_after_get ?_)
    (evAfter_cons _ hI.action_after_get (by intro g hg; simp [actionTrig] at hg))
    (fun P hP => evAfter_cons _ (hI.puts_before_done0 P hP)
      (by intro g hg; simp [done0Trig] at hg))
    ?_ (by intro w2 vid url hmem; simp at hmem)
  · intro vs2 hvs
    injection hvs with h1 h2
    exact absurd h1 hp0
  · intro g hg
    simp [fetchTrig] at hg
    subst hg
    simpa using hgot
  · intro _ e he
    simp at he
    subst he
    rfl

/-- Item loop exhausted: fall through to `task_done`. -/
theorem inv_step_items_done {s : Sys} (hI : Inv s) {w page : Nat}
    {vs : List Vac}
    (hw : s.workers[w]? = some (.processing page vs)) :
    Inv ⟨s.q, s.workers.set w (.atTaskDone page), s.reportedPages, s.trace⟩ := by
  exact inv_step_local hI (.atTaskDone page) hw rfl (by simp) (by simp)
    (by simp) [] (by intro p; simp) (by intro p; simp) (by simp) (by simp)
    hI.fetch_after_get hI.action_after_get hI.puts_before_done0
    (by intro _ e he; simp at he) (by intro w2 vid url hmem; simp at hmem)

/-- A skipped item (blacklist word, blacklist id, or test run): the
worker logs the skip and moves to the rest of the page's items. -/
theorem inv_step_skip {s : Sys} (hI : Inv s) {w page : Nat}
    {v : Vac} {vs : List Vac} (rest : List Vac) (e : Event)
    (hw : s.workers[w]? = some (.processing page (v :: vs)))
    (he : e = .skipWordsEv w v.id ∨ e = .skipIdsEv w v.id ∨ e = .testRunEv w v.id) :
    Inv ⟨s.q, s.workers.set w (.processing page rest), s.reportedPages,
      e :: s.trace⟩ := by
  have hrepne := processing_rep_ne hI hw
  refine inv_step_local hI (.processing page rest) hw rfl (by simp)
    (by simp) ?_ [e]
    (by intro p; rcases he with rfl | rfl | rfl <;> simp)
    (by intro p; rcases he with rfl | rfl | rfl <;> simp)
    (by rcases he with rfl | rfl | rfl <;> simp)
    (by rcases he with rfl | rfl | rfl <;> simp)
    (evAfter_cons _ hI.fetch_after_get
      (by intro g hg; rcases he with rfl | rfl | rfl <;> simp [fetchTrig] at hg))
    (evAfter_cons _ hI.action_after_get
      (by intro g hg; rcases he with rfl | rfl | rfl <;> simp [actionTrig] at hg))
    (fun P hP => evAfter_cons _ (hI.puts_before_done0 P hP)
      (by intro g hg; rcases he with rfl | rfl | rfl <;> simp [done0Trig] at hg))
    (fun hrep => absurd hrep hrepne)
    (by intro w2 vid url hmem
        rcases he with rfl | rfl | rfl <;> simp at hmem)
  exact fun vs2 hvs => hrepne

/-- An apply call that returned without a recordable url (201 with an
empty `Location`): no recording, next item. -/
theorem inv_step_act_plain {s : Sys} (hI : Inv s) {w page : Nat}
    {v : Vac} {vs : List Vac} (rest : List Vac)
    (hw : s.workers[w]? = some (.processing page (v :: vs))) :
    Inv ⟨s.q, s.workers.set w (.processing page rest), s.reportedPages,
      .actionCall w v.id :: s.trace⟩ := by
  have hgot : Event.getUnit w page ∈ s.trace :=
    hI.holder_got w _ hw page rfl
  have hrepne := processing_rep_ne hI hw
  refine inv_step_local hI (.processing page rest) hw rfl (by simp)
    (by simp) ?_ [.actionCall w v.id]
    (by intro p; simp) (by intro p; simp) (by simp) (by simp)
    (evAfter_cons _ hI.fetch_after_get (by intro g hg; simp [fetchTrig] at hg))
    (evAfter_cons _ hI.action_after_get ?_)
    (fun P hP => evAfter_cons _ (hI.puts_before_done0 P hP)
      (by intro g hg; simp [done0Trig] at hg))
    (fun hrep => absurd hrep hrepne)
    (by intro w2 vid url hmem; simp at hmem)
  · exact fun vs2 hvs => hrepne
  · intro g hg
    simp [actionTrig] at hg
    subst hg
    exact ⟨page, by simpa using hgot⟩

/-- An apply call that failed softly: the failure is logged and the
worker continues with the next item of the page. -/
theorem inv_step_act_fail {s : Sys} (hI : Inv s) {w page : Nat}
    {v : Vac} {vs : List Vac} (rest : List Vac) (msg : String)
    (hw : s.workers[w]? = some (.processing page (v :: vs))) :
    Inv ⟨s.q, s.workers.set w (.processing page rest), s.reportedPages,
      .applyFailed w v.id msg :: .actionCall w v.id :: s.trace⟩ := by
  have hgot : Event.getUnit w page ∈ s.trace :=
    hI.holder_got w _ hw page rfl
  have hrepne := processing_rep_ne hI hw
  refine inv_step_local hI (.processing page rest) hw rfl (by simp)
    (by simp) ?_ [.applyFailed w v.id msg, .actionCall w v.id]
    (by intro p; simp) (by intro p; simp) (by simp) (by simp)
    (evAfter_cons _ (evAfter_cons _ hI.fetch_after_get
        (by intro g hg; simp [fetchTrig] at hg))
      (by intro g hg; simp [fetchTrig] at hg))
    (evAfter_cons _ (evAfter_cons _ hI.action_after_get ?_)
      (by intro g hg; simp [actionTrig] at hg))
    (fun P hP => evAfter_cons _ (evAfter_cons _ (hI.puts_before_done0 P hP)
        (by intro g hg; simp [done0Trig] at hg))
      (by intro g hg; simp [done0Trig] at hg))
    (fun hrep => absurd hrep hrepne)
    (by intro w2 vid url hmem; simp at hmem)
  · exact fun vs2 hvs => hrepne
  · intro g hg
    simp [actionTrig] at hg
    subst hg
    exact ⟨page, by simpa using hgot⟩

/-- A successful apply with a nonempty negotiation url: the Notion
recorder is invoked and the worker continues with the next item. -/
theorem inv_step_act_record {s : Sys} (hI : Inv s) {w page : Nat}
    {v : Vac} {vs : List Vac} (rest : List Vac) {url : String}
    (hurl : url ≠ "")
    (hw : s.workers[w]? = some (.processing page (v :: vs))) :
    Inv ⟨s.q, s.workers.set w (.processing page rest), s.reportedPages,
      .recordCall w v.id url :: .actionCall w v.id :: s.trace⟩ := by
  have hgot : Event.getUnit w page ∈ s.trace :=
    hI.holder_got w _ hw page rfl
  have hrepne := processing_rep_ne hI hw
  refine inv_step_local hI (.processing page rest) hw rfl (by simp)
    (by simp) ?_ [.recordCall w v.id url, .actionCall w v.id]
    (by intro p; simp) (by intro p; simp) (by simp) (by simp)
    (evAfter_cons _ (evAfter_cons _ hI.fetch_after_get
        (by intro g hg; simp [fetchTrig] at hg))
      (by intro g hg; simp [fetchTrig] at hg))
    (evAfter_cons _ (evAfter_cons _ hI.action_after_get ?_)
      (by intro g hg; simp [actionTrig] at hg))
    (fun P hP => evAfter_cons _ (evAfter_cons _ (hI.puts_before_done0 P hP)
        (by intro g hg; simp [done0Trig] at hg))
      (by intro g hg; simp [done0Trig] at hg))
    (fun hrep => absurd hrep hrepne)
    ?_
  · exact fun vs2 hvs => hrepne
  · intro g hg
    simp [actionTrig] at hg
    subst hg
    exact ⟨page, by simpa using hgot⟩
  · intro w2 vid url2 hmem
    rcases List.mem_cons.mp hmem with h1 | hmem2
    · injection h1 with a b c
      rw [c]
      exact hurl
    · rcases List.mem_cons.mp hmem2 with h1 | hmem3
      · exact absurd h1 (by simp)
      · simp at hmem3

/-- A worker holding a page makes the in-flight count positive. -/
theorem holders_pos {ws : List Phase} {w : Nat} {ph : Phase}
    (hw : ws[w]? = some ph) (h : (phasePage ph).isSome = true) :
    0 < holders ws :=
  List.countP_pos_iff.mpr ⟨ph, List.getElem?_mem hw, h⟩

/-- A worker holding page `p` makes its per-page count positive. -/
theorem holdersOf_pos {ws : List Phase} {w : Nat} {ph : Phase} {p : Nat}
    (hw : ws[w]? = some ph) (h : phasePage ph = some p) :
    0 < holdersOf ws p :=
  List.countP_pos_iff.mpr ⟨ph, List.getElem?_mem hw, by rw [h]; simp⟩

/-- Two distinct positions both satisfying a predicate force a `countP`
of at least two. -/
theorem countP_two {α : Type} (p : α → Bool) :
    ∀ (l : List α) (i j : Nat), i ≠ j → ∀ {a b : α},
      l[i]? = some a → l[j]? = some b → p a = true → p b = true →
      2 ≤ l.countP p
  | [], i, j, _, _, _, hi, _, _, _ => by simp at hi
  | x :: t, 0, 0, hij, _, _, _, _, _, _ => absurd rfl hij
  | x :: t, 0, j + 1, _, a, b, hi, hj, hpa, hpb => by
      simp only [List.getElem?_cons_zero, Option.some.injEq] at hi
      simp only [List.getElem?_cons_succ] at hj
      have h1 : 0 < t.countP p := List.countP_pos_iff.mpr ⟨b, List.getElem?_mem hj, hpb⟩
      have h2 : p x = true := by rw [hi]; exact hpa
      rw [List.countP_cons]
      have h3 : (if p x = true then 1 else 0) = 1 := by rw [h2]; simp
      omega
  | x :: t, i + 1, 0, _, a, b, hi, hj, hpa, hpb => by
      simp only [List.getElem?_cons_zero, Option.some.injEq] at hj
      simp only [List.getElem?_cons_succ] at hi
      have h1 : 0 < t.countP p := List.countP_pos_iff.mpr ⟨a, List.getElem?_mem hi, hpa⟩
      have h2 : p x = true := by rw [hj]; exact hpb
      rw [List.countP_cons]
      have h3 : (if p x = true then 1 else 0) = 1 := by rw [h2]; simp
      omega
  | x :: t, i + 1, j + 1, hij, a, b, hi, hj, hpa, hpb => by
      simp only [List.getElem?_cons_succ] at hi hj
      have := countP_two p t i j (fun hx => hij (by rw [hx])) hi hj hpa hpb
      rw [List.countP_cons]
      omega

/-- The `task_done` call after a page's items are processed: the unit is marked
done and the worker loops to the next `get`. -/
theorem inv_step_taskdone {s : Sys} (hI : Inv s) {w page : Nat}
    (hw : s.workers[w]? = some (.atTaskDone page)) :
    Inv ⟨⟨s.q.items, s.q.unfinished - 1, s.q.isShutdown⟩,
      s.workers.set w .atGet, s.reportedPages,
      .taskDoneEv w page :: s.trace⟩ := by
  have hwlt : w < s.workers.length := by
    by_contra hge
    rw [List.getElem?_eq_none (Nat.le_of_not_lt hge)] at hw
    cases hw
  have hhold := holders_set (.atGet) hw
  simp at hhold
  have hpos : 0 < holders s.workers := holders_pos hw (by simp)
  have hputs_mem : ∀ P, s.reportedPages = some P →
      ∀ p, 1 ≤ p → p < P → Event.putUnit p ∈ s.trace := by
    intro P hP p h1 h2
    have hpc := hI.put_counts p
    rw [hP] at hpc
    have hpc2 : putCount s.trace p = if 1 ≤ p ∧ p < P then 1 else 0 := hpc
    rw [if_pos ⟨h1, h2⟩] at hpc2
    have hpos2 : 0 < putCount s.trace p := by omega
    exact List.count_pos_iff.mp hpos2
  refine ⟨?_, ?_, ?_, ?_, ?_, ?_, ?_, ?_, ?_, ?_, ?_, ?_, ?_, ?_, ?_, ?_, ?_, ?_, ?_⟩
  · show s.q.unfinished - 1 = s.q.items.length + holders (s.workers.set w .atGet)
    have := hI.acct
    omega
  · exact hI.shut_empty
  · exact shut_mem_prepend [.taskDoneEv w page] (by simp) hI.shut_trace
  · intro p
    simpa using hI.put_counts p
  · intro hsd p
    have hof := holdersOf_set (.atGet) hw p
    simp at hof
    have hcons := hI.conserve hsd p
    show seed p + putCount (Event.taskDoneEv w page :: s.trace) p
      = s.q.items.count p + holdersOf (s.workers.set w .atGet) p
        + doneCount (Event.taskDoneEv w page :: s.trace) p
    rw [putCount_cons, doneCount_cons]
    by_cases hpp : page = p
    · simp [hpp] at hof ⊢
      omega
    · simp [hpp] at hof ⊢
      omega
  · have hof := holdersOf_set (.atGet) hw 0
    simp at hof
    have h0 := hI.zero_total
    show s.q.items.count 0 + holdersOf (s.workers.set w .atGet) 0
      + doneCount (Event.taskDoneEv w page :: s.trace) 0 = 1
    rw [doneCount_cons]
    by_cases hpp : page = 0
    · simp [hpp] at hof ⊢
      omega
    · simp [hpp] at hof ⊢
      omega
  · intro hrep
    obtain ⟨hc0, hnof⟩ := hI.rep_zero hrep
    refine ⟨hc0, ?_⟩
    intro x hx
    rcases List.mem_or_eq_of_mem_set hx with hold | rfl
    · exact hnof x hold
    · simp
  · exact hI.shut_rep
  · intro x hx p hpp hp0
    rcases List.mem_or_eq_of_mem_set hx with hold | rfl
    · exact hI.holder_rep x hold p hpp hp0
    · simp at hpp
  · intro x hx vs hvs
    rcases List.mem_or_eq_of_mem_set hx with hold | rfl
    · exact hI.proc0_rep x hold vs hvs
    · cases hvs
  · exact hI.item_rep
  · intro x hx
    rcases List.mem_or_eq_of_mem_set hx with hold | rfl
    · exact hI.no_crash x hold
    · simp
  · exact noGetAfterShut_cons _ hI.no_get (by simp)
  · exact evAfter_cons _ hI.fetch_after_get (by intro g hg; simp [fetchTrig] at hg)
  · exact evAfter_cons _ hI.action_after_get (by intro g hg; simp [actionTrig] at hg)
  · intro w' x hx p hpp
    by_cases hww : w = w'
    · subst hww
      rw [List.getElem?_set_self hwlt] at hx
      injection hx with hx
      subst hx
      simp at hpp
    · rw [List.getElem?_set_ne hww] at hx
      exact List.mem_cons_of_mem _ (hI.holder_got w' x hx p hpp)
  · intro P hP
    refine evAfter_cons _ (hI.puts_before_done0 P hP) ?_
    intro g hg
    simp only [done0Trig] at hg
    split at hg
    · rename_i hpage0
      intro p h1 h2
      exact hputs_mem P hP p h1 h2
    · cases hg
  · intro hrep e he
    rcases List.mem_cons.mp he with rfl | he2
    · rfl
    · exact hI.none_no_items hrep e he2
  · intro w' vid url h
    rcases List.mem_cons.mp h with hx | h2
    · cases hx
    · exact hI.record_urls w' vid url h2

/-- Every seeded page has its `putUnit` event in the trace once the
page count is reported. -/
theorem puts_mem_of_reported {s : Sys} (hI : Inv s) {P : Nat}
    (hP : s.reportedPages = some P) {p : Nat} (h1 : 1 ≤ p) (h2 : p < P) :
    Event.putUnit p ∈ s.trace := by
  have hpc := hI.put_counts p
  rw [hP] at hpc
  have hpc2 : putCount s.trace p = if 1 ≤ p ∧ p < P then 1 else 0 := hpc
  rw [if_pos ⟨h1, h2⟩] at hpc2
  have hpos2 : 0 < putCount s.trace p := by omega
  exact List.count_pos_iff.mp hpos2

/-- The fatal quota path: the worker that saw `limit_exceeded` shuts
the queue down immediately (draining all queued units), marks its own
unit done and loops back to `get`. -/
theorem inv_step_limit {s : Sys} (hI : Inv s) {w page : Nat}
    {v : Vac} {vs : List Vac}
    (hw : s.workers[w]? = some (.processing page (v :: vs))) :
    Inv ⟨⟨[], s.q.unfinished - s.q.items.length - 1, true⟩,
      s.workers.set w .atGet, s.reportedPages,
      .taskDoneEv w page :: .shutdownEv :: .actionCall w v.id :: s.trace⟩ := by
  have hwlt : w < s.workers.length := by
    by_contra hge
    rw [List.getElem?_eq_none (Nat.le_of_not_lt hge)] at hw
    cases hw
  have hrepne := processing_rep_ne hI hw
  have hc0 : s.q.items.count 0 = 0 := (hI.rep_zero hrepne).1
  have hgot : Event.getUnit w page ∈ s.trace :=
    hI.holder_got w _ hw page rfl
  have hhold := holders_set (.atGet) hw
  simp at hhold
  have hpos : 0 < holders s.workers := holders_pos hw (by simp)
  refine ⟨?_, ?_, ?_, ?_, ?_, ?_, ?_, ?_, ?_, ?_, ?_, ?_, ?_, ?_, ?_, ?_, ?_, ?_, ?_⟩
  · show s.q.unfinished - s.q.items.length - 1
      = List.length ([] : List Nat) + holders (s.workers.set w .atGet)
    have := hI.acct
    simp only [List.length_nil]
    omega
  · intro _
    rfl
  · simp
  · intro p
    show putCount (Event.taskDoneEv w page :: Event.shutdownEv
      :: Event.actionCall w v.id :: s.trace) p = _
    rw [putCount_cons, putCount_cons, putCount_cons]
    simpa using hI.put_counts p
  · intro hx
    simp at hx
  · have hof := holdersOf_set (.atGet) hw 0
    simp at hof
    have h0 := hI.zero_total
    show List.count 0 ([] : List Nat) + holdersOf (s.workers.set w .atGet) 0
      + doneCount (Event.taskDoneEv w page :: Event.shutdownEv
        :: Event.actionCall w v.id :: s.trace) 0 = 1
    rw [doneCount_cons, doneCount_cons, doneCount_cons]
    by_cases hpp : page = 0
    · simp [hpp] at hof ⊢
      omega
    · simp [hpp] at hof ⊢
      omega
  · intro _
    refine ⟨by simp, ?_⟩
    intro x hx
    rcases List.mem_or_eq_of_mem_set hx with hold | rfl
    · exact (hI.rep_zero hrepne).2 x hold
    · simp
  · intro _
    exact hrepne
  · intro x hx p hpp hp0
    rcases List.mem_or_eq_of_mem_set hx with hold | rfl
    · exact hI.holder_rep x hold p hpp hp0
    · simp at hpp
  · intro x hx vs2 hvs
    rcases List.mem_or_eq_of_mem_set hx with hold | rfl
    · exact hI.proc0_rep x hold vs2 hvs
    · cases hvs
  · intro p hp
    simp at hp
  · intro x hx
    rcases List.mem_or_eq_of_mem_set hx with hold | rfl
    · exact hI.no_crash x hold
    · simp
  · exact noGetAfterShut_cons _ (noGetAfterShut_cons _
      (noGetAfterShut_cons _ hI.no_get (by simp)) (by simp)) (by simp)
  · refine evAfter_cons _ (evAfter_cons _ (evAfter_cons _ hI.fetch_after_get
        (by intro g hg; simp [fetchTrig] at hg))
      (by intro g hg; simp [fetchTrig] at hg)) ?_
    intro g hg
    simp [fetchTrig] at hg
  · refine evAfter_cons _ (evAfter_cons _ (evAfter_cons _ hI.action_after_get ?_)
        (by intro g hg; simp [actionTrig] at hg))
      (by intro g hg; simp [actionTrig] at hg)
    intro g hg
    simp [actionTrig] at hg
    subst hg
    exact ⟨page, by simpa using hgot⟩
  · intro w' x hx p hpp
    by_cases hww : w = w'
    · subst hww
      rw [List.getElem?_set_self hwlt] at hx
      injection hx with hx
      subst hx
      simp at hpp
    · rw [List.getElem?_set_ne hww] at hx
      exact List.mem_cons_of_mem _ (List.mem_cons_of_mem _
        (List.mem_cons_of_mem _ (hI.holder_got w' x hx p hpp)))
  · intro P hP
    refine evAfter_cons _ (evAfter_cons _ (evAfter_cons _
        (hI.puts_before_done0 P hP) (by intro g hg; simp [done0Trig] at hg))
      (by intro g hg; simp [done0Trig] at hg)) ?_
    intro g hg
    simp only [done0Trig] at hg
    split at hg
    · intro p h1 h2
      exact List.mem_cons_of_mem _ (List.mem_cons_of_mem _
        (puts_mem_of_reported hI hP h1 h2))
    · cases hg
  · intro hrep
    exact absurd hrep hrepne
  · intro w' vid url h
    rcases List.mem_cons.mp h with hx | h2
    · cases hx
    · rcases List.mem_cons.mp h2 with hx | h3
      · cases hx
      · rcases List.mem_cons.mp h3 with hx | h4
        · cases hx
        · exact hI.record_urls w' vid url h4

/-- An event matched by the unit-0 `task_done` trigger is a
`taskDoneEv` on page 0. -/
theorem done0Trig_eq {x : Event} {g : Unit} (h : done0Trig x = some g) :
    ∃ w2, x = .taskDoneEv w2 0 := by
  cases x <;> simp [done0Trig] at h
  case taskDoneEv w2 p => exact ⟨w2, by rw [h]⟩

/-- The successful page-0 fetch: the total page count is learned,
pages `1 .. P-1` are enqueued in one atomic block, and the worker
starts iterating page 0's items. -/
theorem inv_step_fetch_zero {s : Sys} (hI : Inv s) {w : Nat}
    (vs : List Vac) (P : Nat)
    (hw : s.workers[w]? = some (.atFetch 0))
    (hsd : s.q.isShutdown = false) :
    Inv ⟨⟨s.q.items ++ fill_queue_pages 1 P,
        s.q.unfinished + (fill_queue_pages 1 P).length, s.q.isShutdown⟩,
      s.workers.set w (.processing 0 vs), some P,
      (fill_queue_pages 1 P).reverse.map .putUnit
        ++ .fetchCall w 0 :: s.trace⟩ := by
  have hwlt : w < s.workers.length := by
    by_contra hge
    rw [List.getElem?_eq_none (Nat.le_of_not_lt hge)] at hw
    cases hw
  have hrepnone : s.reportedPages = none := by
    cases hr : s.reportedPages with
    | none => rfl
    | some Q =>
        exact absurd rfl
          ((hI.rep_zero (by rw [hr]; simp)).2 _ (List.getElem?_mem hw))
  have hput0 : ∀ p, putCount s.trace p = 0 := by
    intro p
    have hpc := hI.put_counts p
    rw [hrepnone] at hpc
    exact hpc
  have hnoshut : Event.shutdownEv ∉ s.trace := fun hc => by
    rw [hI.shut_trace.mp hc] at hsd
    cases hsd
  have hgot : Event.getUnit w 0 ∈ s.trace :=
    hI.holder_got w _ hw 0 rfl
  have hhold : holders (s.workers.set w (.processing 0 vs)) = holders s.workers := by
    have := holders_set (.processing 0 vs) hw
    simp at this
    omega
  have hof : ∀ p, holdersOf (s.workers.set w (.processing 0 vs)) p
      = holdersOf s.workers p := by
    intro p
    have := holdersOf_set (.processing 0 vs) hw p
    simp at this
    omega
  have h0pos : 0 < holdersOf s.workers 0 := holdersOf_pos hw rfl
  have h0tot := hI.zero_total
  have hcount0 : s.q.items.count 0 = 0 := by omega
  have hdone0 : doneCount s.trace 0 = 0 := by omega
  have h0one : holdersOf s.workers 0 = 1 := by omega
  have hstuff : ∀ p, p ≠ 0 → s.q.items.count p = 0 ∧ holdersOf s.workers p = 0
      ∧ doneCount s.trace p = 0 := by
    intro p hp
    have hc := hI.conserve hsd p
    rw [hput0 p] at hc
    simp [seed, hp] at hc
    omega
  refine ⟨?_, ?_, ?_, ?_, ?_, ?_, ?_, ?_, ?_, ?_, ?_, ?_, ?_, ?_, ?_, ?_, ?_, ?_, ?_⟩
  · show s.q.unfinished + (fill_queue_pages 1 P).length
      = (s.q.items ++ fill_queue_pages 1 P).length
        + holders (s.workers.set w (.processing 0 vs))
    rw [List.length_append, hhold]
    have := hI.acct
    omega
  · intro hx
    rw [hsd] at hx
    cases hx
  · refine shut_mem_prepend _ ?_
      (shut_mem_prepend [Event.fetchCall w 0] (by simp) hI.shut_trace)
    intro e he
    rcases List.mem_map.mp he with ⟨a, _, rfl⟩
    simp
  · intro p
    show putCount ((fill_queue_pages 1 P).reverse.map .putUnit
      ++ Event.fetchCall w 0 :: s.trace) p = if 1 ≤ p ∧ p < P then 1 else 0
    rw [putCount_append, putCount_map_putUnit, List.count_reverse,
      putCount_cons, hput0 p, fill_queue_pages_count]
    simp
  · intro _ p
    have hcons := hI.conserve hsd p
    rw [hput0 p] at hcons
    show seed p + putCount ((fill_queue_pages 1 P).reverse.map .putUnit
        ++ Event.fetchCall w 0 :: s.trace) p
      = (s.q.items ++ fill_queue_pages 1 P).count p
        + holdersOf (s.workers.set w (.processing 0 vs)) p
        + doneCount ((fill_queue_pages 1 P).reverse.map .putUnit
          ++ Event.fetchCall w 0 :: s.trace) p
    rw [putCount_append, putCount_map_putUnit, List.count_reverse,
      putCount_cons, hput0 p, doneCount_append, doneCount_map_putUnit,
      doneCount_cons, List.count_append, hof p]
    have hcp : (if Event.fetchCall w 0 = Event.putUnit p then 1 else 0) = 0 := by
      simp
    have hcd : (match Event.fetchCall w 0 with
        | Event.taskDoneEv _ q => if q = p then 1 else 0
        | _ => 0) = 0 := rfl
    omega
  · show (s.q.items ++ fill_queue_pages 1 P).count 0
      + holdersOf (s.workers.set w (.processing 0 vs)) 0
      + doneCount ((fill_queue_pages 1 P).reverse.map .putUnit
        ++ Event.fetchCall w 0 :: s.trace) 0 = 1
    rw [List.count_append, hof 0, doneCount_append, doneCount_map_putUnit,
      doneCount_cons]
    have hL0 : (fill_queue_pages 1 P).count 0 = 0 := by
      rw [fill_queue_pages_count]
      simp
    have hcd : (match Event.fetchCall w 0 with
        | Event.taskDoneEv _ q => if q = 0 then 1 else 0
        | _ => 0) = 0 := rfl
    omega
  · intro _
    constructor
    · rw [List.count_append, hcount0]
      rw [fill_queue_pages_count]
      simp
    · intro x hx hxeq
      subst hxeq
      obtain ⟨k, hk⟩ := List.mem_iff_getElem?.mp hx
      by_cases hkw : k = w
      · subst hkw
        rw [List.getElem?_set_self hwlt] at hk
        injection hk with hk
        cases hk
      · rw [List.getElem?_set_ne (fun h => hkw h.symm)] at hk
        have h2 := countP_two (fun x => phasePage x == some 0) s.workers k w
          hkw hk hw (by simp) (by simp)
        have : holdersOf s.workers 0 = s.workers.countP
            (fun x => phasePage x == some 0) := rfl
        omega
  · intro _
    simp
  · intro x hx p hpp hp0
    rcases List.mem_or_eq_of_mem_set hx with hold | rfl
    · obtain ⟨Q, hQ, _⟩ := hI.holder_rep x hold p hpp hp0
      rw [hrepnone] at hQ
      cases hQ
    · simp at hpp
      exact absurd hpp.symm hp0
  · intro x hx vs2 hvs
    simp
  · intro p hp hp0
    rcases List.mem_append.mp hp with hin | hin
    · have hpos := List.count_pos_iff.mpr hin
      have := (hstuff p hp0).1
      omega
    · obtain ⟨h1, h2⟩ := fill_queue_pages_mem.mp hin
      exact ⟨P, rfl, h1, h2⟩
  · intro x hx
    rcases List.mem_or_eq_of_mem_set hx with hold | rfl
    · exact hI.no_crash x hold
    · simp
  · refine noGetAfterShut_prepend _ (noGetAfterShut_cons _ hI.no_get (by simp)) ?_
    intro e he
    rcases List.mem_map.mp he with ⟨a, _, rfl⟩
    simp
  · refine evAfter_prepend _ (evAfter_cons _ hI.fetch_after_get ?_) ?_
    · intro g hg
      simp [fetchTrig] at hg
      subst hg
      simpa using hgot
    · intro e he
      rcases List.mem_map.mp he with ⟨a, _, rfl⟩
      rfl
  · refine evAfter_prepend _ (evAfter_cons _ hI.action_after_get
      (by intro g hg; simp [actionTrig] at hg)) ?_
    intro e he
    rcases List.mem_map.mp he with ⟨a, _, rfl⟩
    rfl
  · intro w' x hx p hpp
    rw [List.mem_append]
    by_cases hww : w = w'
    · subst hww
      rw [List.getElem?_set_self hwlt] at hx
      injection hx with hx
      subst hx
      simp at hpp
      subst hpp
      exact Or.inr (List.mem_cons_of_mem _ hgot)
    · rw [List.getElem?_set_ne hww] at hx
      exact Or.inr (List.mem_cons_of_mem _ (hI.holder_got w' x hx p hpp))
  · intro Q hQ
    injection hQ with hQ
    subst hQ
    intro a x b hab g hg
    exfalso
    obtain ⟨w2, rfl⟩ := done0Trig_eq hg
    have hab2 : (fill_queue_pages 1 P).reverse.map Event.putUnit
        ++ Event.fetchCall w 0 :: s.trace = a ++ Event.taskDoneEv w2 0 :: b := hab
    have hxT : Event.taskDoneEv w2 0 ∈ ((fill_queue_pages 1 P).reverse.map
        Event.putUnit ++ Event.fetchCall w 0 :: s.trace) := by
      rw [hab2]
      simp
    rcases List.mem_append.mp hxT with hin | hin
    · rcases List.mem_map.mp hin with ⟨a2, _, ha2⟩
      cases ha2
    · rcases List.mem_cons.mp hin with hx2 | hin2
      · cases hx2
      · have : 0 < doneCount s.trace 0 :=
          List.countP_pos_iff.mpr ⟨_, hin2, by simp⟩
        omega
  · intro hrep
    cases hrep
  · intro w' vid url h
    rcases List.mem_append.mp h with hin | hin
    · rcases List.mem_map.mp hin with ⟨a2, _, ha2⟩
      cases ha2
    · rcases List.mem_cons.mp hin with hx2 | hin2
      · cases hx2
      · exact hI.record_urls w' vid url hin2

/-- Every step of the pool preserves the invariant (and in passing, the
branches that would crash a worker — `queue.put` after shutdown,
`task_done` at zero — are unreachable). -/
theorem inv_step (env : Env) {s s' : Sys} (hI : Inv s) (w : Nat) (i : Inp)
    (h : stepFn env s w i = some s') : Inv s' := by
  unfold stepFn at h
  split at h
  -- atGet / tick
  case _ hw =>
    split at h
    · rename_i page rest hq
      injection h with h
      subst h
      exact inv_step_get hI hw hq
    · rename_i hq
      split at h
      · injection h with h
        subst h
        exact inv_step_exitW hI hw
      · cases h
  -- atFetch / page r
  case _ page r hw =>
    split at h
    -- fetch failed
    · injection h with h
      subst h
      exact inv_step_fetch_fail hI hw
    -- fetch succeeded
    · rename_i j hj
      split at h
      -- page 0
      · rename_i hp0
        subst hp0
        have hsd : s.q.isShutdown = false := by
          cases hx : s.q.isShutdown with
          | false => rfl
          | true =>
              exact absurd rfl
                ((hI.rep_zero (hI.shut_rep hx)).2 _ (List.getElem?_mem hw))
        split at h
        · rename_i hcrash
          rw [hsd] at hcrash
          simp at hcrash
        · injection h with h
          subst h
          exact inv_step_fetch_zero hI _ _ hw hsd
      -- other pages
      · rename_i hp0
        injection h with h
        subst h
        exact inv_step_fetch_other hI _ hw hp0
  -- processing / item steps
  case _ page vs hw =>
    split at h
    -- items exhausted
    · injection h with h
      subst h
      exact inv_step_items_done hI hw
    -- a skipped item (word blacklist, id blacklist, test run, or the
    -- action decision refusing a pure tick)
    · split at h
      · injection h with h
        subst h
        exact inv_step_skip hI _ _ hw (Or.inl rfl)
      · injection h with h
        subst h
        exact inv_step_skip hI _ _ hw (Or.inr (Or.inl rfl))
      · injection h with h
        subst h
        exact inv_step_skip hI _ _ hw (Or.inr (Or.inr rfl))
      · cases h
    -- the action on an item
    · split at h
      · split at h
        -- limit exceeded
        · split at h
          · exfalso
            have hpos : 0 < holders s.workers :=
              holders_pos hw (by simp)
            have := hI.acct
            omega
          · injection h with h
            subst h
            exact inv_step_limit hI hw
        -- returned
        · split at h
          · split at h
            · injection h with h
              subst h
              exact inv_step_act_plain hI _ hw
            · rename_i hurl
              injection h with h
              subst h
              exact inv_step_act_record hI _ hurl hw
          · injection h with h
            subst h
            exact inv_step_act_fail hI _ _ hw
      · cases h
    · cases h
  -- task_done
  case _ page hw =>
    split at h
    · rename_i hu
      exfalso
      have hpos : 0 < holders s.workers :=
        holders_pos hw (by simp)
      have := hI.acct
      omega
    · injection h with h
      subst h
      exact inv_step_taskdone hI hw
  -- no step
  case _ =>
    cases h

/-- The invariant holds in every reachable state. -/
theorem inv_reach {env : Env} {n : Nat} {s : Sys} (h : Reachable env n s) :
    Inv s := by
  induction h with
  | refl => exact inv_init n
  | tail hstep hlast ih =>
      obtain ⟨w, i, hwi⟩ := hlast
      exact inv_step env ih w i hwi

/-! ## The claims -/
/-- C4: `apply_to_vacancy` returns the record URL taken from the
response's `Location` header exactly when the remote status is 201
(2xx-created); it raises the fatal `HH_Limit_Exceeded_Error` signal
exactly when the status is 400 or 403 and the structured error body
contains the `limit_exceeded` marker; for every other status (other
400/403 bodies, a 303 redirect, or any unknown status) it returns no
record URL and raises nothing — the quota signal is the only outcome
that escapes as an exception. -/
theorem claim_c4 (r : ApplyResponse) :
    ((apply_to_vacancy r).1 = .returned (some (r.location.getD "")) ↔ r.status = 201)
    ∧ ((apply_to_vacancy r).1 = .limitExceeded ↔
        ((r.status = 400 ∨ r.status = 403)
          ∧ r.errors.any (fun e => e = "limit_exceeded") = true))
    ∧ (r.status ≠ 201 →
        ¬((r.status = 400 ∨ r.status = 403)
          ∧ r.errors.any (fun e => e = "limit_exceeded") = true) →
        (apply_to_vacancy r).1 = .returned none) := by
  unfold apply_to_vacancy
  split_ifs with h1 h2 h3 h4 <;> simp_all
  tauto

/-- Witness for C4 at a 303 redirect response: the call returns no
record URL and raises nothing. -/
theorem claim_c4_witness :
    (apply_to_vacancy ⟨303, some "http://ext", [], "d", "b"⟩).1
      = .returned none :=
  (claim_c4 ⟨303, some "http://ext", [], "d", "b"⟩).2.2 (by decide) (by decide)

/-- C5: the word-blacklist filter is evaluated before the id-blacklist
filter and the first match short-circuits with its own distinct skip
reason: an item matching a word-blacklist token is skipped with the
word reason even when it also matches the id blacklist; an item
matching only the id blacklist is skipped with the id reason; and for a
skipped item the action step is never enabled — the only step the
worker can take logs the skip and moves on. -/
theorem claim_c5 (env : Env) (v : Vac) :
    (vacancy_blacklisted_by_words env (v.name ++ " " ++ v.employer) = true →
      vacancy_blacklisted_by_ids env v.id = true →
      itemDecision env v = .skipWords)
    ∧ (vacancy_blacklisted_by_words env (v.name ++ " " ++ v.employer) = false →
        vacancy_blacklisted_by_ids env v.id = true →
        itemDecision env v = .skipIds)
    ∧ (∀ s w page rest r, s.workers[w]? = some (.processing page (v :: rest)) →
        itemDecision env v ≠ .act →
        stepFn env s w (.resp r) = none)
    ∧ (∀ s w page rest, s.workers[w]? = some (.processing page (v :: rest)) →
        itemDecision env v = .skipWords →
        stepFn env s w .tick = some ⟨s.q, s.workers.set w (.processing page rest),
          s.reportedPages, .skipWordsEv w v.id :: s.trace⟩) := by
  refine ⟨?_, ?_, ?_, ?_⟩
  · intro hword _
    unfold itemDecision
    rw [hword]
    simp
  · intro hword hid
    unfold itemDecision
    rw [hword, hid]
    simp
  · intro s w page rest r hw hdec
    unfold stepFn
    rw [hw]
    cases hd : itemDecision env v with
    | act => exact absurd hd hdec
    | skipWords => simp [hd]
    | skipIds => simp [hd]
    | testRun => simp [hd]
  · intro s w page rest hw hdec
    unfold stepFn
    rw [hw]
    simp [hdec]

/-- Witness for C5: an item whose title matches a blacklist word and
whose id is also id-blacklisted is skipped with the word reason. -/
theorem claim_c5_witness :
    itemDecision ⟨["python"], ["77"], false, true, .similar⟩
      ⟨"77", "python dev", "acme", "u"⟩ = .skipWords :=
  (claim_c5 ⟨["python"], ["77"], false, true, .similar⟩
    ⟨"77", "python dev", "acme", "u"⟩).1 (by decide) (by decide)

/-- C6: a non-fatal (non-quota) failure of the action on one item is
caught and logged inside the worker's per-item pipeline: the step
succeeds, the failure is logged (`applyFailed`), the worker continues
with the remaining items of the page, and the queue — including all
units for subsequent pages — is completely untouched, so neither the
page nor the pool is aborted. -/
theorem claim_c6 (env : Env) (s : Sys) (w page : Nat) (v : Vac)
    (rest : List Vac) (r : ApplyResponse)
    (hw : s.workers[w]? = some (.processing page (v :: rest)))
    (hdec : itemDecision env v = .act)
    (hout : (apply_to_vacancy r).1 = .returned none) :
    stepFn env s w (.resp r) = some ⟨s.q,
      s.workers.set w (.processing page rest), s.reportedPages,
      .applyFailed w v.id ((apply_to_vacancy r).2.getD "")
        :: .actionCall w v.id :: s.trace⟩ := by
  unfold stepFn
  rw [hw]
  cases hpair : apply_to_vacancy r with
  | mk o m =>
      rw [hpair] at hout
      simp at hout
      subst hout
      simp [hdec, hpair]

/-- Witness for C6: a 404 apply response is logged and the worker
carries on with an untouched queue. -/
theorem claim_c6_witness :
    stepFn ⟨[], [], false, true, .similar⟩
      ⟨⟨[1, 2], 3, false⟩, [.processing 0 [⟨"77", "n", "e", "u"⟩]], some 3, []⟩
      0 (.resp ⟨404, none, [], "", "nf"⟩)
    = some ⟨⟨[1, 2], 3, false⟩, [.processing 0 []], some 3,
      [.applyFailed 0 "77" "Unknown error: 404 nf", .actionCall 0 "77"]⟩ :=
  claim_c6 ⟨[], [], false, true, .similar⟩
    ⟨⟨[1, 2], 3, false⟩, [.processing 0 [⟨"77", "n", "e", "u"⟩]], some 3, []⟩
    0 0 ⟨"77", "n", "e", "u"⟩ [] ⟨404, none, [], "", "nf"⟩ rfl rfl rfl

/-- C8: a listing fetch that returns a non-2xx status is logged
(`fetchFail`) and the page is treated as yielding zero items — the
worker goes straight from the fetch to `task_done` without invoking any
filter or action and with the queue untouched; the subsequent
`task_done` step marks the unit done and the worker loops back to
`get`, so the run continues. -/
theorem claim_c8 (env : Env) (s : Sys) (w page : Nat) (r : ListingResponse)
    (hw : s.workers[w]? = some (.atFetch page))
    (hst : r.status ≠ 200) :
    stepFn env s w (.page r) = some ⟨s.q,
      s.workers.set w (.atTaskDone page), s.reportedPages,
      .fetchFail w page :: .fetchCall w page :: s.trace⟩
    ∧ (∀ (s2 : Sys) (w2 p2 : Nat), s2.workers[w2]? = some (.atTaskDone p2) →
        s2.q.unfinished ≠ 0 →
        stepFn env s2 w2 .tick = some ⟨⟨s2.q.items, s2.q.unfinished - 1,
          s2.q.isShutdown⟩, s2.workers.set w2 .atGet, s2.reportedPages,
          .taskDoneEv w2 p2 :: s2.trace⟩) := by
  have hresp : get_vacancies_response env.search r = none := by
    cases env.search <;> simp [get_vacancies_response, hst]
  constructor
  · unfold stepFn
    rw [hw]
    simp [hresp]
  · intro s2 w2 p2 hw2 hu
    unfold stepFn
    rw [hw2]
    simp [hu]

/-- Witness for C8: a 500 listing response on page 1 yields zero items,
is marked done, and the worker keeps running. -/
theorem claim_c8_witness :
    stepFn ⟨[], [], false, true, .similar⟩
      ⟨⟨[2], 2, false⟩, [.atFetch 1], some 3, []⟩
      0 (.page ⟨500, ⟨0, 0, []⟩, "err"⟩)
    = some ⟨⟨[2], 2, false⟩, [.atTaskDone 1], some 3,
      [.fetchFail 0 1, .fetchCall 0 1]⟩ :=
  (claim_c8 ⟨[], [], false, true, .similar⟩
    ⟨⟨[2], 2, false⟩, [.atFetch 1], some 3, []⟩
    0 1 ⟨500, ⟨0, 0, []⟩, "err"⟩ rfl (by decide)).1

/-- C7: when the action on an item of the current page raises the quota
signal, the worker (i) stops processing the remaining items of that
page (it moves straight back to `get`), (ii) marks its current unit
done (`taskDoneEv`), and (iii) triggers `queue.shutdown(immediate=True)`
— the flag is set and every unconsumed unit is discarded; and any
worker that subsequently calls `get` on the closed empty queue treats
the queue-closed signal as its termination cue and exits. -/
theorem claim_c7 (env : Env) (n : Nat) (s : Sys) (hreach : Reachable env n s)
    (w page : Nat) (v : Vac) (rest : List Vac) (r : ApplyResponse)
    (hw : s.workers[w]? = some (.processing page (v :: rest)))
    (hdec : itemDecision env v = .act)
    (hlim : (apply_to_vacancy r).1 = .limitExceeded) :
    stepFn env s w (.resp r) = some ⟨⟨[], s.q.unfinished - s.q.items.length - 1,
      true⟩, s.workers.set w .atGet, s.reportedPages,
      .taskDoneEv w page :: .shutdownEv :: .actionCall w v.id :: s.trace⟩
    ∧ (∀ (s2 : Sys) (w2 : Nat), s2.workers[w2]? = some .atGet →
        s2.q.isShutdown = true → s2.q.items = [] →
        stepFn env s2 w2 .tick = some ⟨s2.q, s2.workers.set w2 .exited,
          s2.reportedPages, .workerExit w2 :: s2.trace⟩) := by
  have hI := inv_reach hreach
  have hpos : 0 < holders s.workers := holders_pos hw (by simp)
  have hacct := hI.acct
  have hu : ¬(s.q.unfinished - s.q.items.length = 0) := by omega
  constructor
  · unfold stepFn
    rw [hw]
    cases hpair : apply_to_vacancy r with
    | mk o m =>
        rw [hpair] at hlim
        simp at hlim
        subst hlim
        simp [hdec, hpair, hu]
  · intro s2 w2 hw2 hsd2 hq2
    unfold stepFn
    rw [hw2, hq2]
    simp [hsd2]

/-- C9: the recorder (`add_apply_to_notion`) is invoked for an item if
and only if the action returned a nonempty record URL.  In particular a
201 response without a `Location` header makes `apply_to_vacancy`
return the empty string, and for that item the step adds no
`recordCall`; moreover in any reachable state every `recordCall` in the
trace carries a nonempty url. -/
theorem claim_c9 (env : Env) (n : Nat) (s : Sys) (hreach : Reachable env n s)
    (w page : Nat) (v : Vac) (rest : List Vac)
    (hw : s.workers[w]? = some (.processing page (v :: rest)))
    (hdec : itemDecision env v = .act) :
    (∀ r : ApplyResponse, r.status = 201 → r.location = none →
      (apply_to_vacancy r).1 = .returned (some ""))
    ∧ (∀ r url, (apply_to_vacancy r).1 = .returned (some url) → url ≠ "" →
        stepFn env s w (.resp r) = some ⟨s.q,
          s.workers.set w (.processing page rest), s.reportedPages,
          .recordCall w v.id url :: .actionCall w v.id :: s.trace⟩)
    ∧ (∀ r, (apply_to_vacancy r).1 = .returned (some "") →
        stepFn env s w (.resp r) = some ⟨s.q,
          s.workers.set w (.processing page rest), s.reportedPages,
          .actionCall w v.id :: s.trace⟩)
    ∧ (∀ w2 vid url, Event.recordCall w2 vid url ∈ s.trace → url ≠ "") := by
  refine ⟨?_, ?_, ?_, (inv_reach hreach).record_urls⟩
  · intro r h201 hloc
    unfold apply_to_vacancy
    rw [if_pos h201, hloc]
    rfl
  · intro r url hret hurl
    unfold stepFn
    rw [hw]
    cases hpair : apply_to_vacancy r with
    | mk o m =>
        rw [hpair] at hret
        simp at hret
        subst hret
        simp [hdec, hpair, hurl]
  · intro r hret
    unfold stepFn
    rw [hw]
    cases hpair : apply_to_vacancy r with
    | mk o m =>
        rw [hpair] at hret
        simp at hret
        subst hret
        simp [hdec, hpair]

/-- C1: once the quota signal fired (a `shutdownEv` is in the trace,
with `a` the events after it and `b` the events before it), no work
unit that had not already been dequeued at that moment is ever
processed in the same run: no dequeue happens after the shutdown, every
later page fetch and every later item action belongs to a unit dequeued
before the shutdown, and the queue is torn down with its unconsumed
units discarded. -/
theorem claim_c1 (env : Env) (n : Nat) (s : Sys) (hreach : Reachable env n s)
    (a b : List Event) (hab : s.trace = a ++ Event.shutdownEv :: b) :
    (∀ e ∈ a, ∀ w p, e ≠ .getUnit w p)
    ∧ (∀ w p, Event.fetchCall w p ∈ a → Event.getUnit w p ∈ b)
    ∧ (∀ w vid, Event.actionCall w vid ∈ a → ∃ p, Event.getUnit w p ∈ b)
    ∧ s.q.isShutdown = true ∧ s.q.items = [] := by
  have hI := inv_reach hreach
  have hnoget := hI.no_get a b hab
  have hshut : s.q.isShutdown = true := hI.shut_trace.mp (by rw [hab]; simp)
  refine ⟨hnoget, ?_, ?_, hshut, hI.shut_empty hshut⟩
  · intro w p hf
    obtain ⟨a1, a2, ha⟩ := List.append_of_mem hf
    have htr : s.trace = a1 ++ Event.fetchCall w p
        :: (a2 ++ Event.shutdownEv :: b) := by
      rw [hab, ha]
      simp
    have hg := hI.fetch_after_get a1 _ _ htr (w, p) rfl
    rcases List.mem_append.mp hg with hin | hin
    · exact absurd rfl (hnoget _ (by
        rw [ha]
        exact List.mem_append.mpr (Or.inr (List.mem_cons_of_mem _ hin))) w p)
    · rcases List.mem_cons.mp hin with hx | hin2
      · cases hx
      · exact hin2
  · intro w vid hf
    obtain ⟨a1, a2, ha⟩ := List.append_of_mem hf
    have htr : s.trace = a1 ++ Event.actionCall w vid
        :: (a2 ++ Event.shutdownEv :: b) := by
      rw [hab, ha]
      simp
    obtain ⟨p, hg⟩ := hI.action_after_get a1 _ _ htr w rfl
    rcases List.mem_append.mp hg with hin | hin
    · exact absurd rfl (hnoget _ (by
        rw [ha]
        exact List.mem_append.mpr (Or.inr (List.mem_cons_of_mem _ hin))) w p)
    · rcases List.mem_cons.mp hin with hx | hin2
      · cases hx
      · exact ⟨p, hin2⟩

/-- C2: in every reachable state of a run with any number of workers,
once the successful page-0 response reported `P` total pages, the trace
holds exactly one enqueue (`putUnit`) for each page index `1 ≤ p < P`
and none for any other index — exactly `P-1` additional units, each
exactly once; while page 0 has not succeeded (and in particular in runs
where only non-0 pages responded), no additional unit is ever
enqueued. -/
theorem claim_c2 (env : Env) (n : Nat) (s : Sys) (hreach : Reachable env n s) :
    (∀ P, s.reportedPages = some P →
      ∀ p, putCount s.trace p = if 1 ≤ p ∧ p < P then 1 else 0)
    ∧ (s.reportedPages = none → ∀ p, putCount s.trace p = 0) := by
  have hI := inv_reach hreach
  constructor
  · intro P hP p
    have h := hI.put_counts p
    rw [hP] at h
    exact h
  · intro hP p
    have h := hI.put_counts p
    rw [hP] at h
    exact h

/-- C3: the worker processing page 0 enqueues the units for pages
`1..P-1` strictly before it calls `task_done` on unit 0 (every
`putUnit p` lies before any `taskDoneEv _ 0` in the trace); hence, for
any number of workers, whenever `unfinished` reaches 0 without a
shutdown — the condition on which `queue.join()` returns — all `P`
units (pages `0..P-1`) have been marked done. -/
theorem claim_c3 (env : Env) (n : Nat) (s : Sys) (hreach : Reachable env n s)
    (P : Nat) (hP : s.reportedPages = some P) :
    (∀ a w b, s.trace = a ++ Event.taskDoneEv w 0 :: b →
      ∀ p, 1 ≤ p → p < P → Event.putUnit p ∈ b)
    ∧ (s.q.isShutdown = false → s.q.unfinished = 0 →
        ∀ p, p < P → ∃ w2, Event.taskDoneEv w2 p ∈ s.trace) := by
  have hI := inv_reach hreach
  constructor
  · intro a w b hab p h1 h2
    exact hI.puts_before_done0 P hP a _ b hab () (by simp [done0Trig]) p h1 h2
  · intro hsd hu p hpP
    have hacct := hI.acct
    have hitems : s.q.items = [] := List.length_eq_zero.mp (by omega)
    have hhold : holders s.workers = 0 := by omega
    have hOf : holdersOf s.workers p = 0 := by
      have hle : holdersOf s.workers p ≤ holders s.workers := by
        refine List.countP_mono_left ?_
        intro ph _ hph
        cases hpp : phasePage ph <;> simp [hpp] at hph ⊢
      omega
    have hcons := hI.conserve hsd p
    rw [hitems] at hcons
    simp at hcons
    have hput := hI.put_counts p
    rw [hP] at hput
    have hput2 : putCount s.trace p = if 1 ≤ p ∧ p < P then 1 else 0 := hput
    have hdpos : 0 < doneCount s.trace p := by
      by_cases hp0 : p = 0
      · subst hp0
        have hseed : seed 0 = 1 := rfl
        omega
      · rw [if_pos ⟨by omega, hpP⟩] at hput2
        have hseed : seed p = 0 := by simp [seed, hp0]
        omega
    obtain ⟨e, hmem, hpred⟩ := List.countP_pos_iff.mp hdpos
    cases e <;> simp at hpred
    case taskDoneEv w2 q =>
      subst hpred
      exact ⟨w2, hmem⟩

/-- C10: if the page-0 listing fetch fails (the total page count is
never learned, `reportedPages` stays `none`) and unit 0 has been marked
done, then no additional unit was ever enqueued, no filter, action or
recording call was ever made, the queue is empty with `unfinished = 0`
(so `join()` resolves), the single `task_done` in the trace is the one
for unit 0, and every worker is idle at `get` or already exited — the
pool terminates normally. -/
theorem claim_c10 (env : Env) (n : Nat) (s : Sys) (hreach : Reachable env n s)
    (hrep : s.reportedPages = none) (w0 : Nat)
    (hdone : Event.taskDoneEv w0 0 ∈ s.trace) :
    s.q.unfinished = 0
    ∧ (∀ p, putCount s.trace p = 0)
    ∧ (∀ e ∈ s.trace, isItemEvent e = false)
    ∧ s.q.items = []
    ∧ (∀ ph ∈ s.workers, ph = .atGet ∨ ph = .exited)
    ∧ doneCount s.trace 0 = 1
    ∧ (∀ p, p ≠ 0 → doneCount s.trace p = 0) := by
  have hI := inv_reach hreach
  have hsd : s.q.isShutdown = false := by
    cases hx : s.q.isShutdown with
    | false => rfl
    | true => exact absurd hrep (hI.shut_rep hx)
  have hput : ∀ p, putCount s.trace p = 0 := by
    intro p
    have h := hI.put_counts p
    rw [hrep] at h
    exact h
  have hd0pos : 0 < doneCount s.trace 0 :=
    List.countP_pos_iff.mpr ⟨_, hdone, by simp⟩
  have h0 := hI.zero_total
  have hd0 : doneCount s.trace 0 = 1 := by omega
  have hc0 : s.q.items.count 0 = 0 := by omega
  have hof0 : holdersOf s.workers 0 = 0 := by omega
  have hrest : ∀ p, p ≠ 0 → s.q.items.count p = 0 ∧ holdersOf s.workers p = 0
      ∧ doneCount s.trace p = 0 := by
    intro p hp
    have hcons := hI.conserve hsd p
    rw [hput p] at hcons
    have hseed : seed p = 0 := by simp [seed, hp]
    exact ⟨by omega, by omega, by omega⟩
  have hitems : s.q.items = [] := by
    cases hitems : s.q.items with
    | nil => rfl
    | cons x t =>
        exfalso
        have hxpos : 0 < s.q.items.count x := by
          rw [hitems]
          simp [List.count_cons]
        by_cases hx0 : x = 0
        · subst hx0
          omega
        · have := (hrest x hx0).1
          omega
  have hworkers : ∀ ph ∈ s.workers, ph = .atGet ∨ ph = .exited := by
    intro ph hph
    cases hpp : phasePage ph with
    | some p =>
        exfalso
        have hop : 0 < holdersOf s.workers p :=
          List.countP_pos_iff.mpr ⟨ph, hph, by simp [hpp]⟩
        by_cases hp0 : p = 0
        · subst hp0
          omega
        · have := (hrest p hp0).2.1
          omega
    | none =>
        cases ph with
        | atGet => exact Or.inl rfl
        | exited => exact Or.inr rfl
        | crashed => exact absurd rfl (hI.no_crash _ hph)
        | atFetch p => simp at hpp
        | processing p vs => simp at hpp
        | atTaskDone p => simp at hpp
  have hhold : holders s.workers = 0 := by
    rw [holders, List.countP_eq_zero]
    intro ph hph
    rcases hworkers ph hph with rfl | rfl <;> simp
  refine ⟨?_, hput, hI.none_no_items hrep, hitems, hworkers, hd0, ?_⟩
  · have hacct := hI.acct
    rw [hitems] at hacct
    simp at hacct
    omega
  · intro p hp
    exact (hrest p hp).2.2

/-! ## Concrete executions used by the witnesses -/
/-- One more step extends reachability. -/
theorem reach_step {env : Env} {n : Nat} {s s' : Sys} (h : Reachable env n s)
    {w : Nat} {i : Inp} (hs : stepFn env s w i = some s') :
    Reachable env n s' :=
  h.tail ⟨w, i, hs⟩

theorem reachA7 : Reachable envA 1 sA7 := by
  have h0 : Reachable envA 1 (init 1) := .refl
  have h1 := reach_step h0
    (show stepFn envA (init 1) 0 .tick = some sA1 by rfl)
  have h2 := reach_step h1
    (show stepFn envA sA1 0 (.page ⟨200, ⟨3, 2, []⟩, ""⟩) = some sA2 by rfl)
  have h3 := reach_step h2
    (show stepFn envA sA2 0 .tick = some sA3 by rfl)
  have h4 := reach_step h3
    (show stepFn envA sA3 0 .tick = some sA4 by rfl)
  have h5 := reach_step h4
    (show stepFn envA sA4 0 .tick = some sA5 by rfl)
  have h6 := reach_step h5
    (show stepFn envA sA5 0 (.page ⟨500, ⟨0, 0, []⟩, "err"⟩) = some sA6 by rfl)
  exact reach_step h6 (show stepFn envA sA6 0 .tick = some sA7 by rfl)

theorem reachB2 : Reachable envB 1 sB2 := by
  have h0 : Reachable envB 1 (init 1) := .refl
  have h1 := reach_step h0
    (show stepFn envB (init 1) 0 .tick = some sB1 by rfl)
  exact reach_step h1
    (show stepFn envB sB1 0 (.page ⟨200, ⟨5, 3, [vacB]⟩, ""⟩) = some sB2 by rfl)

theorem reachB4 : Reachable envB 1 sB4 := by
  have h3 := reach_step reachB2
    (show stepFn envB sB2 0 (.resp ⟨403, none, ["limit_exceeded"], "", ""⟩)
      = some sB3 by rfl)
  exact reach_step h3 (show stepFn envB sB3 0 .tick = some sB4 by rfl)

theorem reachC3 : Reachable envB 1 sC3 := by
  have h0 : Reachable envB 1 (init 1) := .refl
  have h1 := reach_step h0
    (show stepFn envB (init 1) 0 .tick = some sB1 by rfl)
  have h2 := reach_step h1
    (show stepFn envB sB1 0 (.page ⟨500, ⟨0, 0, []⟩, "b"⟩) = some sC2 by rfl)
  exact reach_step h2 (show stepFn envB sC2 0 .tick = some sC3 by rfl)

/-- Witness for C1 in scenario B: after the quota shutdown the queue is
closed and its unconsumed units (pages 1 and 2) are discarded. -/
theorem claim_c1_witness : sB4.q.isShutdown = true ∧ sB4.q.items = [] :=
  (claim_c1 envB 1 sB4 reachB4 [.workerExit 0, .taskDoneEv 0 0]
    [.actionCall 0 "77", .putUnit 2, .putUnit 1, .fetchCall 0 0, .getUnit 0 0]
    rfl).2.2.2

/-- Witness for C2 in scenario A: with 2 reported pages, page 1 was
enqueued exactly once and page 2 never. -/
theorem claim_c2_witness : putCount sA7.trace 1 = 1 ∧ putCount sA7.trace 2 = 0 := by
  have h := (claim_c2 envA 1 sA7 reachA7).1 2 rfl
  exact ⟨by simpa using h 1, by simpa using h 2⟩

/-- Witness for C3 in scenario A: the enqueue of page 1 happened
strictly before `task_done` on unit 0. -/
theorem claim_c3_witness :
    Event.putUnit 1 ∈ ([.putUnit 1, .fetchCall 0 0, .getUnit 0 0] : List Event) :=
  (claim_c3 envA 1 sA7 reachA7 2 rfl).1
    [.taskDoneEv 0 1, .fetchFail 0 1, .fetchCall 0 1, .getUnit 0 1] 0
    [.putUnit 1, .fetchCall 0 0, .getUnit 0 0] rfl 1 (by decide) (by decide)

/-- Witness for C7 in scenario B: the limit-exceeded response makes the
worker shut the queue down, mark its unit done and stop its page. -/
theorem claim_c7_witness :
    stepFn envB sB2 0 (.resp ⟨403, none, ["limit_exceeded"], "", ""⟩)
      = some sB3 :=
  (claim_c7 envB 1 sB2 reachB2 0 0 vacB []
    ⟨403, none, ["limit_exceeded"], "", ""⟩ rfl rfl rfl).1

/-- Witness for C9 in scenario B: a 201 response without a `Location`
header yields the empty record URL. -/
theorem claim_c9_witness :
    (apply_to_vacancy ⟨201, none, [], "", ""⟩).1 = .returned (some "") :=
  (claim_c9 envB 1 sB2 reachB2 0 0 vacB [] rfl rfl).1
    ⟨201, none, [], "", ""⟩ rfl rfl

/-- Witness for C10 in scenario C: after the failed page-0 fetch the
run winds down with an empty queue and `join` resolving. -/
theorem claim_c10_witness : sC3.q.unfinished = 0 ∧ sC3.q.items = [] :=
  ⟨(claim_c10 envB 1 sC3 reachC3 rfl 0 (List.mem_cons_self _ _)).1,
    (claim_c10 envB 1 sC3 reachC3 rfl 0 (List.mem_cons_self _ _)).2.2.2.1⟩

end HHApply

